import Mathlib

/-!
Shallow embedding of `src/assignmentManager.js` (classes `Assignment`, `Observer`,
`Student`, `ClassList`) together with the deferred-timer facility the code uses
(`setTimeout` / `clearTimeout`).

Modelling conventions:
* JS numbers that hold grades are modelled as rationals (`ℚ`); `null`/`undefined`
  grades are `Option.none`.
* Status fields are the literal strings the code stores
  (`"released"`, `"working"`, `"submitted"`, `"final reminder"`, `"Pass"`, `"Fail"`).
* The observer is modelled by its only behaviourally relevant property: whether
  `observer && typeof observer.notify === "function"` holds (`observerHasNotify`),
  plus the exact message strings `Observer.notify` would print (returned as logs).
* `setTimeout` returns a fresh positive id from a counter; the pending-task queue
  and the counter form a `Sched`.  `clearTimeout id` removes the task with that id.
* A `World` is a `ClassList` state: the roster, the scheduler and the class-level
  observer flag.  Timer callbacks capture the owning student (by roster index) and
  the assignment name; this matches the JS closures because assignments are found
  by name, created at most once per student and never removed.
-/

abbrev Grade := ℚ

structure Assignment where
  assignmentName : String
  status : String
  grade : Option Grade
  graded : Bool
  workTimeoutId : Option Nat
deriving DecidableEq, Repr

/-- `new Assignment(name)`: status `"released"`, no grade, not graded, no timer. -/
def Assignment.create (assignmentName : String) : Assignment :=
  { assignmentName := assignmentName, status := "released", grade := none,
    graded := false, workTimeoutId := none }

/-- `Assignment.setGrade`: record the grade, mark graded, derive Pass/Fail. -/
def Assignment.setGrade (a : Assignment) (g : Grade) : Assignment :=
  { a with grade := some g, graded := true,
           status := if g > 50 then "Pass" else "Fail" }

/-- The message `Observer.notify` prints for a given student name, assignment
name, status and reminder flag (precedence of the if/else chain in the code). -/
def Observer.notifyMsg (studentName assignmentName status : String)
    (isReminder : Bool) : String :=
  if isReminder || status == "final reminder" then
    "Observer → " ++ studentName ++ ", final reminder for " ++ assignmentName ++ "."
  else if status == "released" then
    "Observer → " ++ studentName ++ ", " ++ assignmentName ++ " has been released."
  else if status == "working" then
    "Observer → " ++ studentName ++ " is working on " ++ assignmentName ++ "."
  else if status == "submitted" then
    "Observer → " ++ studentName ++ " has submitted " ++ assignmentName ++ "."
  else if status == "Pass" then
    "Observer → " ++ studentName ++ " has passed " ++ assignmentName
  else if status == "Fail" then
    "Observer → " ++ studentName ++ " has failed " ++ assignmentName
  else
    "Observer → " ++ studentName ++ ", " ++ assignmentName ++
      " status updated to " ++ status ++ "."

/-- A JS value passed as the `grade` argument of `updateAssignmentStatus`;
only `typeof v === "number"` matters to the code. -/
inductive JSVal where
  | num (g : Grade)
  | str (s : String)
  | undef
  | boolVal (b : Bool)
  | nullVal
deriving DecidableEq, Repr

def JSVal.isNumber : JSVal → Bool
  | .num _ => true
  | _ => false

def JSVal.toNum : JSVal → Grade
  | .num g => g
  | _ => 0

structure Student where
  fullName : String
  email : String
  assignmentStatuses : List Assignment
  overallGrade : Option Grade
  observerHasNotify : Bool
deriving DecidableEq, Repr

/-- A fresh student: constructor with empty assignment list and null overall grade. -/
def Student.create (fullName email : String) (observerHasNotify : Bool) : Student :=
  { fullName := fullName, email := email, assignmentStatuses := [],
    overallGrade := none, observerHasNotify := observerHasNotify }

/-- `Student._findAssignment`: first assignment with the given name, else null. -/
def Student.findAssignment (s : Student) (name : String) : Option Assignment :=
  s.assignmentStatuses.find? (fun a => a.assignmentName == name)

/-- `Student._notifyObserver`: the lines printed (empty when the observer is
missing or has no `notify` function). -/
def Student.notifyLog (s : Student) (a : Assignment) (isReminder : Bool) : List String :=
  if s.observerHasNotify then
    [Observer.notifyMsg s.fullName a.assignmentName a.status isReminder]
  else
    []

/-- `Student._recalculateOverallGrade`: mean over assignments whose `_grade` is
neither null nor undefined; null when there are none. -/
def Student.recalculateOverallGrade (s : Student) : Student :=
  let graded := s.assignmentStatuses.filter (fun a => a.grade.isSome)
  if graded.length = 0 then
    { s with overallGrade := none }
  else
    let total := (graded.map (fun a => a.grade.getD 0)).sum
    { s with overallGrade := some (total / (graded.length : Grade)) }

/-- The shared lazy-creation prologue of the three mutators: if the assignment
does not exist, create it, push it, and fire the "released" notification. -/
def Student.ensure (s : Student) (name : String) : Student × List String :=
  match s.findAssignment name with
  | some _ => (s, [])
  | none =>
    let a := Assignment.create name
    ({ s with assignmentStatuses := s.assignmentStatuses ++ [a] },
      s.notifyLog a false)

/-- Replace the first assignment named `name` (the object `find` returns). -/
def updateFirst (name : String) (f : Assignment → Assignment) :
    List Assignment → List Assignment
  | [] => []
  | a :: rest =>
    if a.assignmentName == name then f a :: rest
    else a :: updateFirst name f rest

/-- `Student.updateAssignmentStatus(name, grade)`: lazy creation, then, when the
grade is a number, `setGrade` + notify + recalculate. -/
def Student.updateAssignmentStatus (s : Student) (name : String) (grade : JSVal) :
    Student × List String :=
  let p := s.ensure name
  if grade.isNumber then
    match p.1.findAssignment name with
    | none => p
    | some a =>
      let a1 := a.setGrade grade.toNum
      let l2 := updateFirst name (fun _ => a1) p.1.assignmentStatuses
      let s2 := { p.1 with assignmentStatuses := l2 }
      (s2.recalculateOverallGrade, p.2 ++ s2.notifyLog a1 false)
  else
    p

/-- `Student.getAssignmentStatus(name)`. -/
def Student.getAssignmentStatus (s : Student) (name : String) : String :=
  match s.findAssignment name with
  | none => "Hasn't been assigned"
  | some a => a.status

/-- The kind of deferred callback a `setTimeout` call registered. -/
inductive TaskKind where
  | autoSubmit (sid : Nat) (name : String)
  | autoGrade (sid : Nat) (name : String)
deriving DecidableEq, Repr

structure TimerTask where
  id : Nat
  kind : TaskKind
deriving DecidableEq, Repr

/-- Pending timers plus the id counter `setTimeout` draws from. -/
structure Sched where
  tasks : List TimerTask
  nextId : Nat
deriving DecidableEq, Repr

/-- `clearTimeout` guarded by the JS truthiness test on the stored id. -/
def Sched.clear (sch : Sched) (i : Option Nat) : Sched :=
  match i with
  | none => sch
  | some i => { sch with tasks := sch.tasks.filter (fun t => t.id ≠ i) }

/-- `setTimeout`: register a task, return its fresh id. -/
def Sched.add (sch : Sched) (k : TaskKind) : Sched × Nat :=
  ({ tasks := sch.tasks ++ [⟨sch.nextId, k⟩], nextId := sch.nextId + 1 }, sch.nextId)

/-- `Student.startWorking(name)`: ensure, force status `"working"`, notify,
clear the stored timer, schedule auto-submit and store its id. -/
def Student.startWorking (s : Student) (sid : Nat) (name : String) (sch : Sched) :
    Student × Sched × List String :=
  let p := s.ensure name
  match p.1.findAssignment name with
  | none => (p.1, sch, p.2)
  | some a =>
    let a1 := { a with status := "working" }
    let l2 := updateFirst name (fun _ => a1) p.1.assignmentStatuses
    let s2 := { p.1 with assignmentStatuses := l2 }
    let log2 := s2.notifyLog a1 false
    let sch1 := sch.clear a1.workTimeoutId
    let q := sch1.add (.autoSubmit sid name)
    let a2 := { a1 with workTimeoutId := some q.2 }
    let l3 := updateFirst name (fun _ => a2) s2.assignmentStatuses
    let s3 := { s2 with assignmentStatuses := l3 }
    (s3, q.1, p.2 ++ log2)

/-- `Student.submitAssignment(name)`: ensure; no-op when already
submitted/Pass/Fail; else clear and null the stored timer, set `"submitted"`,
notify, schedule auto-grade (whose id the code does NOT store). -/
def Student.submitAssignment (s : Student) (sid : Nat) (name : String) (sch : Sched) :
    Student × Sched × List String :=
  let p := s.ensure name
  match p.1.findAssignment name with
  | none => (p.1, sch, p.2)
  | some a =>
    if a.status == "submitted" || a.status == "Pass" || a.status == "Fail" then
      (p.1, sch, p.2)
    else
      let sch1 := sch.clear a.workTimeoutId
      let a1 := { a with workTimeoutId := none, status := "submitted" }
      let l2 := updateFirst name (fun _ => a1) p.1.assignmentStatuses
      let s2 := { p.1 with assignmentStatuses := l2 }
      let log2 := s2.notifyLog a1 false
      let q := sch1.add (.autoGrade sid name)
      (s2, q.1, p.2 ++ log2)

/-- `Student.getGrade()`: recalculate and return the overall average. -/
def Student.getGrade (s : Student) : Student × Option Grade :=
  let s1 := s.recalculateOverallGrade
  (s1, s1.overallGrade)

/-- A `ClassList` state together with the timer facility. -/
structure World where
  students : List Student
  sched : Sched
  classObserverHasNotify : Bool
deriving DecidableEq, Repr

def World.setStudent (w : World) (i : Nat) (s : Student) : World :=
  { w with students := w.students.set i s }

/-- One student's `updateAssignmentStatus` as a world transition. -/
def World.updateStep (w : World) (i : Nat) (name : String) (g : JSVal) : World :=
  match w.students.get? i with
  | none => w
  | some s => w.setStudent i (s.updateAssignmentStatus name g).1

/-- One student's `startWorking` as a world transition. -/
def World.workStep (w : World) (i : Nat) (name : String) : World :=
  match w.students.get? i with
  | none => w
  | some s =>
    let r := s.startWorking i name w.sched
    { w with students := w.students.set i r.1, sched := r.2.1 }

/-- One student's `submitAssignment` as a world transition. -/
def World.submitStep (w : World) (i : Nat) (name : String) : World :=
  match w.students.get? i with
  | none => w
  | some s =>
    let r := s.submitAssignment i name w.sched
    { w with students := w.students.set i r.1, sched := r.2.1 }

/-- One student's `getGrade` as a world transition (it recalculates in place). -/
def World.getGradeStep (w : World) (i : Nat) : World :=
  match w.students.get? i with
  | none => w
  | some s => w.setStudent i s.recalculateOverallGrade

/-- Remove a fired or cleared timer from the queue. -/
def World.removeTask (w : World) (tid : Nat) : World :=
  { w with sched := { w.sched with tasks := w.sched.tasks.filter (fun t => t.id ≠ tid) } }

/-- The auto-submit callback scheduled by `startWorking`: fire (the task leaves
the queue), then submit only when the status is still working/released/final
reminder. -/
def World.fireAutoSubmit (w : World) (tid sid : Nat) (name : String) : World :=
  let w1 := w.removeTask tid
  match w1.students.get? sid with
  | none => w1
  | some s =>
    match s.findAssignment name with
    | none => w1
    | some a =>
      if a.status == "working" || a.status == "released" ||
          a.status == "final reminder" then
        let r := s.submitAssignment sid name w1.sched
        { w1 with students := w1.students.set sid r.1, sched := r.2.1 }
      else
        w1

/-- The auto-grade callback scheduled by `submitAssignment`: fire, return early
when `_graded` is set, else set a drawn grade, notify, recalculate. -/
def World.fireAutoGrade (w : World) (tid sid : Nat) (name : String) (g : Grade) : World :=
  let w1 := w.removeTask tid
  match w1.students.get? sid with
  | none => w1
  | some s =>
    match s.findAssignment name with
    | none => w1
    | some a =>
      if a.graded then
        w1
      else
        let a1 := a.setGrade g
        let l2 := updateFirst name (fun _ => a1) s.assignmentStatuses
        let s2 := { s with assignmentStatuses := l2 }
        w1.setStudent sid s2.recalculateOverallGrade

/-- Outstanding statuses used by `findOutstandingAssignments` with no filter. -/
def outstandingStatus (st : String) : Bool :=
  st == "released" || st == "working" || st == "final reminder"

/-- `ClassList.findOutstandingAssignments(name?)`; the argument's JS truthiness
(`undefined` and `""` are falsy) selects the branch. -/
def World.findOutstandingAssignments (w : World) (name : Option String) : List String :=
  if name.getD "" ≠ "" then
    let n := name.getD ""
    (w.students.filter (fun s =>
      match s.findAssignment n with
      | none => false
      | some a => !(a.status == "submitted" || a.status == "Pass" ||
          a.status == "Fail"))).map (fun s => s.fullName)
  else
    (w.students.filter (fun s =>
      s.assignmentStatuses.any (fun a => outstandingStatus a.status))).map
      (fun s => s.fullName)

/-- The body `sendReminder` runs for the student at roster index `i`. -/
def World.sendReminderOne (w : World) (name : String) (outstanding : List String)
    (i : Nat) : World :=
  match w.students.get? i with
  | none => w
  | some s =>
    if outstanding.contains s.fullName then
      let s1 := if (s.findAssignment name).isSome then s
        else (s.updateAssignmentStatus name JSVal.undef).1
      match s1.findAssignment name with
      | none => w.setStudent i s1
      | some a =>
        let a1 := { a with status := "final reminder" }
        let sch1 := w.sched.clear a1.workTimeoutId
        let a2 := { a1 with workTimeoutId := none }
        let l2 := updateFirst name (fun _ => a2) s1.assignmentStatuses
        let s2 := { s1 with assignmentStatuses := l2 }
        let r := s2.submitAssignment i name sch1
        { w with students := w.students.set i r.1, sched := r.2.1 }
    else
      w

/-- `ClassList.sendReminder(name)`: compute the outstanding names once, then
run the reminder body over the roster in order. -/
def World.sendReminder (w : World) (name : String) : World :=
  let outstanding := w.findOutstandingAssignments (some name)
  (List.range w.students.length).foldl
    (fun w1 i => w1.sendReminderOne name outstanding i) w

/-- One step of the engine: a public operation or a timer firing.  The drawn
auto-grade value is `Math.floor(Math.random() * 101)`, an integer in [0,100]. -/
inductive Step : World → World → Prop where
  | update (w : World) (i : Nat) (name : String) (g : JSVal) :
      Step w (w.updateStep i name g)
  | work (w : World) (i : Nat) (name : String) :
      Step w (w.workStep i name)
  | submit (w : World) (i : Nat) (name : String) :
      Step w (w.submitStep i name)
  | getGrade (w : World) (i : Nat) :
      Step w (w.getGradeStep i)
  | remind (w : World) (name : String) :
      Step w (w.sendReminder name)
  | fireSubmit (w : World) (t : TimerTask) (ht : t ∈ w.sched.tasks)
      (sid : Nat) (name : String) (hk : t.kind = .autoSubmit sid name) :
      Step w (w.fireAutoSubmit t.id sid name)
  | fireGrade (w : World) (t : TimerTask) (ht : t ∈ w.sched.tasks)
      (sid : Nat) (name : String) (hk : t.kind = .autoGrade sid name)
      (g : Nat) (hg : g ≤ 100) :
      Step w (w.fireAutoGrade t.id sid name (g : Grade))

/-- An initial world: freshly constructed students, no pending timers, the id
counter at its first positive value. -/
def World.isInit (w : World) : Prop :=
  (∀ s ∈ w.students, s.assignmentStatuses = [] ∧ s.overallGrade = none) ∧
    w.sched.tasks = [] ∧ w.sched.nextId = 1

/-- Worlds reachable through the public operations and timer firings. -/
inductive Reach : World → Prop where
  | init (w : World) (h : w.isInit) : Reach w
  | step (w w1 : World) (h : Reach w) (hs : Step w w1) : Reach w1

/-! ## Basic facts about the embedded operations -/

theorem recalc_assignments (s : Student) :
    s.recalculateOverallGrade.assignmentStatuses = s.assignmentStatuses := by
  unfold Student.recalculateOverallGrade
  by_cases h : (s.assignmentStatuses.filter (fun a => a.grade.isSome)).length = 0 <;>
    simp [h]

theorem recalc_fullName (s : Student) :
    s.recalculateOverallGrade.fullName = s.fullName := by
  unfold Student.recalculateOverallGrade
  by_cases h : (s.assignmentStatuses.filter (fun a => a.grade.isSome)).length = 0 <;>
    simp [h]

/-! ## C2 -/

/-- C2: `setGrade g` records grade `g`, marks the assignment graded, yields
status `"Pass"` exactly when `g > 50` and `"Fail"` exactly when `g ≤ 50`;
in particular grade 50 is a fail. -/
theorem C2_setGrade_boundary (a : Assignment) (g : Grade) :
    (a.setGrade g).grade = some g ∧ (a.setGrade g).graded = true ∧
    ((a.setGrade g).status = "Pass" ↔ 50 < g) ∧
    ((a.setGrade g).status = "Fail" ↔ g ≤ 50) ∧
    (a.setGrade 50).status = "Fail" := by
  refine ⟨rfl, rfl, ?_, ?_, by norm_num [Assignment.setGrade]⟩ <;>
    by_cases h : (50 : Grade) < g <;>
      simp [Assignment.setGrade, h, le_of_not_lt, not_le_of_lt]

/-! ## C5 -/

/-- C5: `submitAssignment` on an assignment already submitted, passed or failed
is a complete no-op: same student state, same scheduler (no new timer), and no
notification line. -/
theorem C5_submit_terminal_noop (s : Student) (sid : Nat) (name : String)
    (sch : Sched) (a : Assignment)
    (hf : s.findAssignment name = some a)
    (hst : a.status = "submitted" ∨ a.status = "Pass" ∨ a.status = "Fail") :
    s.submitAssignment sid name sch = (s, sch, []) := by
  unfold Student.submitAssignment Student.ensure
  rw [hf]
  simp only []
  rw [hf]
  have : (a.status == "submitted" || a.status == "Pass" || a.status == "Fail") = true := by
    rcases hst with h | h | h <;> simp [h]
  simp [this]

def demoTerminal : Student :=
  { fullName := "Ada", email := "", overallGrade := none, observerHasNotify := true,
    assignmentStatuses := [⟨"HW", "submitted", none, false, none⟩] }

/-- Witness for C5 at a concrete submitted assignment. -/
theorem C5_submit_terminal_noop_witness :
    demoTerminal.findAssignment "HW" = some ⟨"HW", "submitted", none, false, none⟩ ∧
    demoTerminal.submitAssignment 0 "HW" ⟨[], 1⟩ = (demoTerminal, ⟨[], 1⟩, []) :=
  ⟨by decide, C5_submit_terminal_noop demoTerminal 0 "HW" ⟨[], 1⟩
    ⟨"HW", "submitted", none, false, none⟩ (by decide) (Or.inl rfl)⟩

/-! ## C6 -/

/-- C6: `getGrade()` returns null exactly when no assignment has a present
grade, and otherwise the arithmetic mean of the grades of exactly the
assignments with a present grade. -/
theorem C6_getGrade_mean (s : Student) :
    ((s.getGrade).2 = none ↔ ∀ a ∈ s.assignmentStatuses, a.grade = none) ∧
    (∀ L, L = s.assignmentStatuses.filter (fun a => a.grade.isSome) → L ≠ [] →
      (s.getGrade).2 = some ((L.map (fun a => a.grade.getD 0)).sum / (L.length : Grade))) := by
  constructor
  · by_cases hz : (s.assignmentStatuses.filter (fun a => a.grade.isSome)).length = 0
    · constructor
      · intro _ a ha
        have hmem : a ∉ s.assignmentStatuses.filter (fun a => a.grade.isSome) := by
          rw [List.length_eq_zero.mp hz]
          simp
        have hns : ¬ a.grade.isSome = true := fun hs =>
          hmem (List.mem_filter.mpr ⟨ha, hs⟩)
        exact Option.not_isSome_iff_eq_none.mp hns
      · intro _
        unfold Student.getGrade Student.recalculateOverallGrade
        simp [hz]
    · constructor
      · intro h
        unfold Student.getGrade Student.recalculateOverallGrade at h
        simp [hz] at h
      · intro h
        exfalso
        apply hz
        rw [List.length_eq_zero, List.filter_eq_nil_iff]
        intro a ha
        simp [h a ha]
  · intro L hL hne
    unfold Student.getGrade Student.recalculateOverallGrade
    rw [← hL]
    have hz : ¬ L.length = 0 := by simpa [List.length_eq_zero] using hne
    simp [hz]

/-! ## C7 -/

/-- C7: a non-numeric grade argument to `updateAssignmentStatus` behaves exactly
like calling with no grade: when the assignment exists the call returns the
student unchanged with no output; when it does not, it only performs the lazy
creation with the released notification.  (The model is a total function, so no
exception is possible.) -/
theorem C7_nonNumeric_grade (s : Student) (name : String) (v : JSVal)
    (hv : v.isNumber = false) :
    s.updateAssignmentStatus name v = s.updateAssignmentStatus name JSVal.undef ∧
    ((s.findAssignment name).isSome → s.updateAssignmentStatus name v = (s, [])) ∧
    (s.findAssignment name = none →
      s.updateAssignmentStatus name v =
        ({ s with assignmentStatuses := s.assignmentStatuses ++ [Assignment.create name] },
          s.notifyLog (Assignment.create name) false)) := by
  refine ⟨?_, ?_, ?_⟩
  · unfold Student.updateAssignmentStatus
    rw [hv]
    rfl
  · intro hsome
    obtain ⟨a, ha⟩ := Option.isSome_iff_exists.mp hsome
    unfold Student.updateAssignmentStatus Student.ensure
    rw [hv, ha]
    rfl
  · intro hnone
    unfold Student.updateAssignmentStatus Student.ensure
    rw [hv, hnone]
    rfl

/-- Witness for C7: a string grade on a fresh student only performs the lazy
creation with the released notification. -/
theorem C7_nonNumeric_grade_witness :
    (JSVal.str "oops").isNumber = false ∧
    (Student.create "Ada" "" true).findAssignment "HW" = none ∧
    (Student.create "Ada" "" true).updateAssignmentStatus "HW" (JSVal.str "oops") =
      ({ Student.create "Ada" "" true with
          assignmentStatuses := [Assignment.create "HW"] },
        [Observer.notifyMsg "Ada" "HW" "released" false]) := by
  refine ⟨rfl, rfl, ?_⟩
  have h := (C7_nonNumeric_grade (Student.create "Ada" "" true) "HW"
    (JSVal.str "oops") rfl).2.2 rfl
  simpa [Student.create, Student.notifyLog, Assignment.create] using h

/-! ## C8 -/

/-- C8 as stated: a student whose assignment collection is empty never has
their full name in the unfiltered outstanding list. -/
def C8Claim : Prop :=
  ∀ (w : World) (s : Student), s ∈ w.students → s.assignmentStatuses = [] →
    s.fullName ∉ w.findOutstandingAssignments none

def bobActive : Student :=
  { fullName := "Bob", email := "b1", overallGrade := none, observerHasNotify := true,
    assignmentStatuses := [⟨"HW3", "released", none, false, none⟩] }

def bobEmpty : Student := Student.create "Bob" "b2" true

def collisionWorld : World :=
  { students := [bobActive, bobEmpty], sched := ⟨[], 1⟩, classObserverHasNotify := true }

/-- C8 counterexample: with two distinct students both named "Bob", one holding
a released assignment and the other holding none, the unfiltered outstanding
list is `["Bob"]`, which is the full name of the empty-collection student. -/
theorem C8_counterexample : ¬ C8Claim := by
  intro h
  exact h collisionWorld bobEmpty (by decide) rfl (by decide)

/-- C8 (amended): a full name appears in `findOutstandingAssignments()` (no
filter) iff some student bearing that full name has at least one assignment in
status released, working or final reminder; in particular a name of nobody but
empty-collection students never appears, but an empty-collection student's name
can appear when another student with the same full name has outstanding work. -/
theorem C8_amended_outstanding_iff (w : World) (n : String) :
    n ∈ w.findOutstandingAssignments none ↔
      ∃ s ∈ w.students, s.fullName = n ∧
        ∃ a ∈ s.assignmentStatuses,
          (a.status = "released" ∨ a.status = "working" ∨
            a.status = "final reminder") := by
  unfold World.findOutstandingAssignments
  simp only [Option.getD_none, ne_eq, not_true_eq_false, if_false, List.mem_map,
    List.mem_filter, List.any_eq_true, outstandingStatus, Bool.or_eq_true, beq_iff_eq]
  constructor
  · rintro ⟨s, ⟨hs, a, ha, hst⟩, hn⟩
    exact ⟨s, hs, hn, a, ha, by tauto⟩
  · rintro ⟨s, hs, hn, a, ha, hst⟩
    exact ⟨s, ⟨hs, a, ha, by tauto⟩, hn⟩

/-! ## C10 -/

theorem recalc_mk (fn em : String) (l : List Assignment) (og : Option Grade) (c : Bool) :
    (Student.mk fn em l og c).recalculateOverallGrade =
      Student.mk fn em l
        (if (l.filter (fun a => a.grade.isSome)).length = 0 then none
          else some (((l.filter (fun a => a.grade.isSome)).map
              (fun a => a.grade.getD 0)).sum /
            ((l.filter (fun a => a.grade.isSome)).length : Grade))) c := by
  unfold Student.recalculateOverallGrade
  by_cases h : (l.filter (fun a => a.grade.isSome)).length = 0 <;> simp [h]

/-- C10: with an observer that is absent or lacks a `notify` function, every
mutator performs exactly the same state and scheduler changes as with a working
observer, and emits no notification (the model is total, so no exception). -/
theorem C10_mutators_observer_missing (s : Student) (sid : Nat) (name : String)
    (g : JSVal) (sch : Sched) :
    (({ s with observerHasNotify := false } : Student).updateAssignmentStatus name g).1 =
        { (s.updateAssignmentStatus name g).1 with observerHasNotify := false } ∧
    (({ s with observerHasNotify := false } : Student).updateAssignmentStatus name g).2 = [] ∧
    (({ s with observerHasNotify := false } : Student).startWorking sid name sch).1 =
        { (s.startWorking sid name sch).1 with observerHasNotify := false } ∧
    (({ s with observerHasNotify := false } : Student).startWorking sid name sch).2.1 =
        (s.startWorking sid name sch).2.1 ∧
    (({ s with observerHasNotify := false } : Student).startWorking sid name sch).2.2 = [] ∧
    (({ s with observerHasNotify := false } : Student).submitAssignment sid name sch).1 =
        { (s.submitAssignment sid name sch).1 with observerHasNotify := false } ∧
    (({ s with observerHasNotify := false } : Student).submitAssignment sid name sch).2.1 =
        (s.submitAssignment sid name sch).2.1 ∧
    (({ s with observerHasNotify := false } : Student).submitAssignment sid name sch).2.2 = [] := by
  cases hf : s.assignmentStatuses.find? (fun a => a.assignmentName == name) with
  | none =>
    cases g <;>
      simp [Student.updateAssignmentStatus, Student.startWorking,
        Student.submitAssignment, Student.ensure, Student.findAssignment,
        Student.notifyLog, Assignment.create, JSVal.isNumber, hf, recalc_mk]
  | some a =>
    rcases Bool.eq_false_or_eq_true
        (a.status == "submitted" || a.status == "Pass" || a.status == "Fail") with
      hterm | hterm <;>
      cases g <;>
        simp [Student.updateAssignmentStatus, Student.startWorking,
          Student.submitAssignment, Student.ensure, Student.findAssignment,
          Student.notifyLog, Assignment.create, JSVal.isNumber, hf, hterm, recalc_mk]

/-! ## Concrete reachable runs used as counterexamples -/

def adaWorld : World :=
  { students := [Student.create "Ada" "a@x" true], sched := ⟨[], 1⟩,
    classObserverHasNotify := true }

theorem adaWorld_init : adaWorld.isInit := by
  refine ⟨?_, rfl, rfl⟩
  intro s hs
  rcases List.mem_singleton.mp hs with rfl
  exact ⟨rfl, rfl⟩

/-- Ada after `updateAssignmentStatus("HW", 60)`: graded 60, status Pass. -/
def adaGraded : World := adaWorld.updateStep 0 "HW" (JSVal.num 60)

/-- Ada after a further `updateAssignmentStatus("HW", 40)`: regraded. -/
def adaRegraded : World := adaGraded.updateStep 0 "HW" (JSVal.num 40)

/-- Ada after `startWorking("HW")` on the graded assignment. -/
def adaWorking : World := adaGraded.workStep 0 "HW"

theorem reach_adaGraded : Reach adaGraded :=
  Reach.step _ _ (Reach.init adaWorld adaWorld_init)
    (Step.update adaWorld 0 "HW" (JSVal.num 60))

theorem reach_adaRegraded : Reach adaRegraded :=
  Reach.step _ _ reach_adaGraded (Step.update adaGraded 0 "HW" (JSVal.num 40))

theorem reach_adaWorking : Reach adaWorking :=
  Reach.step _ _ reach_adaGraded (Step.work adaGraded 0 "HW")

def gradedA : Assignment := ⟨"HW", "Pass", some 60, true, none⟩

def gradedStudent : Student := ⟨"Ada", "a@x", [gradedA], some 60, true⟩

def regradedA : Assignment := ⟨"HW", "Fail", some 40, true, none⟩

def regradedStudent : Student := ⟨"Ada", "a@x", [regradedA], some 40, true⟩

theorem adaGraded_students : adaGraded.students = [gradedStudent] := by
  norm_num [adaGraded, adaWorld, World.updateStep, World.setStudent, List.get?,
    Student.updateAssignmentStatus, Student.ensure, Student.findAssignment,
    Student.create, Assignment.create, updateFirst, recalc_mk,
    Student.notifyLog, JSVal.isNumber, JSVal.toNum, Assignment.setGrade,
    gradedStudent, gradedA]

theorem adaGraded_eval : adaGraded.students.get? 0 = some gradedStudent := by
  rw [adaGraded_students]
  rfl

theorem adaRegraded_students : adaRegraded.students = [regradedStudent] := by
  unfold adaRegraded World.updateStep
  rw [adaGraded_eval]
  norm_num [World.setStudent, adaGraded_students,
    Student.updateAssignmentStatus, Student.ensure, Student.findAssignment,
    gradedStudent, gradedA, updateFirst, recalc_mk, Student.notifyLog,
    JSVal.isNumber, JSVal.toNum, Assignment.setGrade, regradedStudent, regradedA]

theorem adaRegraded_eval : adaRegraded.students.get? 0 = some regradedStudent := by
  rw [adaRegraded_students]
  rfl

/-! ## C3 -/

/-- C3 as stated: once an assignment is graded, no single further step changes
its recorded grade or its status. -/
def C3Claim : Prop :=
  ∀ (w w1 : World), Reach w → Step w w1 →
    ∀ (i : Nat) (s : Student) (name : String) (a : Assignment),
      w.students.get? i = some s → s.findAssignment name = some a →
      a.graded = true →
      ∃ (s1 : Student) (a1 : Assignment), w1.students.get? i = some s1 ∧
        s1.findAssignment name = some a1 ∧ a1.grade = a.grade ∧
        a1.status = a.status

/-- C3 counterexample: grade "HW" with 60 (Pass), then call
`updateAssignmentStatus("HW", 40)` again — the code regrades: grade becomes 40
and status becomes Fail, although `_graded` was already true. -/
theorem C3_counterexample : ¬ C3Claim := by
  intro h
  obtain ⟨s1, a1, hs1, ha1, hg, hst⟩ :=
    h adaGraded adaRegraded reach_adaGraded
      (Step.update adaGraded 0 "HW" (JSVal.num 40)) 0 gradedStudent "HW" gradedA
      adaGraded_eval (by decide) rfl
  rw [adaRegraded_eval] at hs1
  rcases Option.some.inj hs1 with rfl
  have ha1' : regradedStudent.findAssignment "HW" = some regradedA := by decide
  rw [ha1] at ha1'
  rcases Option.some.inj ha1' with rfl
  exact absurd hg (by decide)

/-- C3 (amended): the `_graded` flag guards only the scheduled auto-grade task:
once an assignment is graded, the auto-grade callback leaves every student
unchanged (it neither regrades nor touches grade or status); the claim's wider
protection fails because `updateAssignmentStatus` with a numeric grade regrades
unconditionally. -/
theorem C3_amended_autoGrade_guard (w : World) (tid sid : Nat) (name : String)
    (g : Grade) (s : Student) (a : Assignment)
    (hs : w.students.get? sid = some s) (hf : s.findAssignment name = some a)
    (hg : a.graded = true) :
    (w.fireAutoGrade tid sid name g).students = w.students := by
  rw [List.get?_eq_getElem?] at hs
  unfold World.fireAutoGrade World.removeTask
  simp [hs, hf, hg]

/-- Witness for the amended C3 at the concrete graded run. -/
theorem C3_amended_autoGrade_guard_witness :
    adaGraded.students.get? 0 = some gradedStudent ∧
    gradedStudent.findAssignment "HW" = some gradedA ∧
    gradedA.graded = true ∧
    (adaGraded.fireAutoGrade 99 0 "HW" 70).students = adaGraded.students :=
  ⟨adaGraded_eval, by decide, rfl,
    C3_amended_autoGrade_guard adaGraded 99 0 "HW" 70 gradedStudent gradedA
      adaGraded_eval (by decide) rfl⟩

/-! ## C1: the grade/status invariant over reachable states -/

/-- The directions of the spec invariant that survive on the code: a terminal
status carries a matching grade. -/
def GradeStatusOk (a : Assignment) : Prop :=
  (a.status = "Pass" → ∃ g, a.grade = some g ∧ 50 < g) ∧
  (a.status = "Fail" → ∃ g, a.grade = some g ∧ g ≤ 50)

def SInv (s : Student) : Prop := ∀ a ∈ s.assignmentStatuses, GradeStatusOk a

def WInv (w : World) : Prop := ∀ s ∈ w.students, SInv s

theorem gso_create (name : String) : GradeStatusOk (Assignment.create name) := by
  constructor <;> intro h <;> simp [Assignment.create] at h

theorem gso_setGrade (a : Assignment) (g : Grade) : GradeStatusOk (a.setGrade g) := by
  by_cases h : (50 : Grade) < g
  · refine ⟨fun _ => ⟨g, ?_, h⟩, fun h1 => ?_⟩
    · simp [Assignment.setGrade, h]
    · simp [Assignment.setGrade, h] at h1
  · refine ⟨fun h1 => ?_, fun _ => ⟨g, ?_, le_of_not_lt h⟩⟩
    · simp [Assignment.setGrade, h] at h1
    · simp [Assignment.setGrade, h]

theorem gso_nonterminal (a : Assignment) (st : String) (tid : Option Nat)
    (h1 : st ≠ "Pass") (h2 : st ≠ "Fail") :
    GradeStatusOk ⟨a.assignmentName, st, a.grade, a.graded, tid⟩ := by
  constructor <;> intro h <;> simp at h <;> simp_all

theorem gso_timer (a : Assignment) (tid : Option Nat) (h : GradeStatusOk a) :
    GradeStatusOk ⟨a.assignmentName, a.status, a.grade, a.graded, tid⟩ := h

theorem mem_updateFirst {a1 : Assignment} {name : String}
    {f : Assignment → Assignment} {l : List Assignment}
    (h : a1 ∈ updateFirst name f l) :
    a1 ∈ l ∨ ∃ b ∈ l, a1 = f b := by
  induction l with
  | nil => simp [updateFirst] at h
  | cons b l ih =>
    unfold updateFirst at h
    by_cases hb : b.assignmentName == name
    · rw [if_pos hb] at h
      rcases List.mem_cons.mp h with h | h
      · exact Or.inr ⟨b, List.mem_cons_self b l, h⟩
      · exact Or.inl (List.mem_cons_of_mem _ h)
    · rw [if_neg hb] at h
      rcases List.mem_cons.mp h with h | h
      · exact Or.inl (by simp [h])
      · rcases ih h with h | ⟨c, hc, hfc⟩
        · exact Or.inl (List.mem_cons_of_mem _ h)
        · exact Or.inr ⟨c, List.mem_cons_of_mem _ hc, hfc⟩

theorem sinv_recalc {s : Student} (h : SInv s) : SInv s.recalculateOverallGrade := by
  intro a ha
  rw [recalc_assignments] at ha
  exact h a ha

theorem sinv_ensure {s : Student} (h : SInv s) (name : String) :
    SInv (s.ensure name).1 := by
  unfold Student.ensure
  cases hf : s.findAssignment name with
  | some a => exact h
  | none =>
    intro a ha
    rcases List.mem_append.mp ha with ha | ha
    · exact h a ha
    · rcases List.mem_singleton.mp ha with rfl
      exact gso_create name

theorem sinv_update {s : Student} (h : SInv s) (name : String) (v : JSVal) :
    SInv (s.updateAssignmentStatus name v).1 := by
  unfold Student.updateAssignmentStatus
  by_cases hv : v.isNumber
  · rw [if_pos hv]
    cases hf : (s.ensure name).1.findAssignment name with
    | none => exact sinv_ensure h name
    | some a =>
      apply sinv_recalc
      intro b hb
      rcases mem_updateFirst hb with hb | ⟨c, hc, rfl⟩
      · exact sinv_ensure h name b hb
      · exact gso_setGrade a v.toNum
  · rw [if_neg hv]
    exact sinv_ensure h name

theorem sinv_startWorking {s : Student} (h : SInv s) (sid : Nat) (name : String)
    (sch : Sched) : SInv (s.startWorking sid name sch).1 := by
  unfold Student.startWorking
  dsimp only
  cases hf : (s.ensure name).1.findAssignment name with
  | none => exact sinv_ensure h name
  | some a =>
    intro b hb
    rcases mem_updateFirst hb with hb | ⟨c, hc, rfl⟩
    · rcases mem_updateFirst hb with hb | ⟨c, hc, rfl⟩
      · exact sinv_ensure h name b hb
      · exact gso_nonterminal a "working" a.workTimeoutId (by decide) (by decide)
    · exact gso_nonterminal a "working" _ (by decide) (by decide)

theorem sinv_submit {s : Student} (h : SInv s) (sid : Nat) (name : String)
    (sch : Sched) : SInv (s.submitAssignment sid name sch).1 := by
  unfold Student.submitAssignment
  dsimp only
  cases hf : (s.ensure name).1.findAssignment name with
  | none => exact sinv_ensure h name
  | some a =>
    by_cases ht : (a.status == "submitted" || a.status == "Pass" || a.status == "Fail") = true
    · simp only [ht, if_true]
      exact sinv_ensure h name
    · simp only [ht, if_false]
      intro b hb
      rcases mem_updateFirst hb with hb | ⟨c, hc, rfl⟩
      · exact sinv_ensure h name b hb
      · exact gso_nonterminal a "submitted" none (by decide) (by decide)

theorem winv_set {w : World} (h : WInv w) {i : Nat} {s1 : Student} (hs1 : SInv s1)
    (sch : Sched) :
    WInv { w with students := w.students.set i s1, sched := sch } := by
  intro s hs
  rcases List.mem_or_eq_of_mem_set hs with hs | rfl
  · exact h s hs
  · exact hs1

theorem winv_updateStep {w : World} (h : WInv w) (i : Nat) (name : String)
    (g : JSVal) : WInv (w.updateStep i name g) := by
  unfold World.updateStep World.setStudent
  cases hget : w.students.get? i with
  | none => exact h
  | some s => exact winv_set h (sinv_update (h s (List.get?_mem hget)) name g) w.sched

theorem winv_workStep {w : World} (h : WInv w) (i : Nat) (name : String) :
    WInv (w.workStep i name) := by
  unfold World.workStep
  cases hget : w.students.get? i with
  | none => exact h
  | some s =>
    exact winv_set h (sinv_startWorking (h s (List.get?_mem hget)) i name w.sched) _

theorem winv_submitStep {w : World} (h : WInv w) (i : Nat) (name : String) :
    WInv (w.submitStep i name) := by
  unfold World.submitStep
  cases hget : w.students.get? i with
  | none => exact h
  | some s =>
    exact winv_set h (sinv_submit (h s (List.get?_mem hget)) i name w.sched) _

theorem winv_getGradeStep {w : World} (h : WInv w) (i : Nat) :
    WInv (w.getGradeStep i) := by
  unfold World.getGradeStep World.setStudent
  cases hget : w.students.get? i with
  | none => exact h
  | some s => exact winv_set h (sinv_recalc (h s (List.get?_mem hget))) w.sched

theorem winv_fireAutoSubmit {w : World} (h : WInv w) (tid sid : Nat)
    (name : String) : WInv (w.fireAutoSubmit tid sid name) := by
  unfold World.fireAutoSubmit World.removeTask
  dsimp only
  have h1 : WInv { w with sched :=
      { tasks := w.sched.tasks.filter (fun t => t.id ≠ tid),
        nextId := w.sched.nextId } } := h
  cases hget : w.students.get? sid with
  | none => exact h1
  | some s =>
    dsimp only
    cases hf : s.findAssignment name with
    | none => exact h1
    | some a =>
      dsimp only
      by_cases hst : (a.status == "working" || a.status == "released" ||
          a.status == "final reminder") = true
      · simp only [hst, if_true]
        exact winv_set h1 (sinv_submit (h s (List.get?_mem hget)) sid name _) _
      · simp only [hst, if_false]
        exact h1

theorem winv_fireAutoGrade {w : World} (h : WInv w) (tid sid : Nat)
    (name : String) (g : Grade) : WInv (w.fireAutoGrade tid sid name g) := by
  unfold World.fireAutoGrade World.removeTask World.setStudent
  dsimp only
  have h1 : WInv { w with sched :=
      { tasks := w.sched.tasks.filter (fun t => t.id ≠ tid),
        nextId := w.sched.nextId } } := h
  cases hget : w.students.get? sid with
  | none => exact h1
  | some s =>
    dsimp only
    cases hf : s.findAssignment name with
    | none => exact h1
    | some a =>
      dsimp only
      by_cases hg : a.graded = true
      · simp only [hg, if_true]
        exact h1
      · simp only [hg, if_false]
        refine winv_set h1 (sinv_recalc ?_) _
        intro b hb
        rcases mem_updateFirst hb with hb | ⟨c, hc, rfl⟩
        · exact h s (List.get?_mem hget) b hb
        · exact gso_setGrade a g

theorem winv_sendReminderOne {w : World} (h : WInv w) (name : String)
    (out : List String) (i : Nat) : WInv (w.sendReminderOne name out i) := by
  unfold World.sendReminderOne World.setStudent
  dsimp only
  cases hget : w.students.get? i with
  | none => exact h
  | some s =>
    dsimp only
    by_cases hc : out.contains s.fullName = true
    · simp only [hc, if_true]
      have hs : SInv s := h s (List.get?_mem hget)
      have hs1 : SInv (if (s.findAssignment name).isSome then s
          else (s.updateAssignmentStatus name JSVal.undef).1) := by
        by_cases he : (s.findAssignment name).isSome
        · simpa [he] using hs
        · simpa [he] using sinv_update hs name JSVal.undef
      cases hf : (if (s.findAssignment name).isSome then s
          else (s.updateAssignmentStatus name JSVal.undef).1).findAssignment name with
      | none => exact winv_set h hs1 w.sched
      | some a =>
        dsimp only
        refine winv_set h (sinv_submit ?_ i name _) _
        intro b hb
        rcases mem_updateFirst hb with hb | ⟨c, hc2, rfl⟩
        · exact hs1 b hb
        · exact gso_nonterminal a "final reminder" none (by decide) (by decide)
    · simp only [hc, if_false]
      exact h

theorem winv_reminderFold (name : String) (out : List String) :
    ∀ (L : List Nat) (w : World), WInv w →
      WInv (L.foldl (fun w1 i => w1.sendReminderOne name out i) w) := by
  intro L
  induction L with
  | nil => intro w h; exact h
  | cons i L ih =>
    intro w h
    exact ih _ (winv_sendReminderOne h name out i)

theorem winv_sendReminder {w : World} (h : WInv w) (name : String) :
    WInv (w.sendReminder name) := by
  unfold World.sendReminder
  exact winv_reminderFold name _ _ w h

theorem winv_step {w w1 : World} (h : WInv w) (hs : Step w w1) : WInv w1 := by
  cases hs with
  | update i name g => exact winv_updateStep h i name g
  | work i name => exact winv_workStep h i name
  | submit i name => exact winv_submitStep h i name
  | getGrade i => exact winv_getGradeStep h i
  | remind name => exact winv_sendReminder h name
  | fireSubmit t ht sid name hk => exact winv_fireAutoSubmit h t.id sid name
  | fireGrade t ht sid name hk g hg => exact winv_fireAutoGrade h t.id sid name g

def workingA : Assignment := ⟨"HW", "working", some 60, true, some 1⟩

def workingStudent : Student := ⟨"Ada", "a@x", [workingA], some 60, true⟩

theorem adaGraded_sched : adaGraded.sched = ⟨[], 1⟩ := rfl

theorem adaWorking_students : adaWorking.students = [workingStudent] := by
  unfold adaWorking World.workStep
  rw [adaGraded_eval]
  dsimp only
  rw [adaGraded_students, adaGraded_sched]
  norm_num [Student.startWorking, Student.ensure, Student.findAssignment,
    gradedStudent, gradedA, updateFirst, Sched.clear, Sched.add,
    Student.notifyLog, workingStudent, workingA]

/-- C1 as stated: in every reachable state, a grade is present iff the status
is Pass or Fail, and the status is Pass iff the grade exceeds 50. -/
def C1Claim : Prop :=
  ∀ w, Reach w → ∀ s ∈ w.students, ∀ a ∈ s.assignmentStatuses,
    (a.grade.isSome ↔ (a.status = "Pass" ∨ a.status = "Fail")) ∧
    (a.status = "Pass" ↔ ∃ g, a.grade = some g ∧ 50 < g)

/-- C1 counterexample: grade "HW" with 60 (status Pass, grade present), then
call `startWorking("HW")` — the code forces status to "working" while the
grade stays present, so "grade present ⟹ status ∈ {Pass, Fail}" fails in a
reachable state. -/
theorem C1_counterexample : ¬ C1Claim := by
  intro h
  have hmem : workingStudent ∈ adaWorking.students := by
    rw [adaWorking_students]
    exact List.mem_singleton.mpr rfl
  have h1 := (h adaWorking reach_adaWorking workingStudent hmem workingA
    (List.mem_singleton.mpr rfl)).1
  rcases h1.mp (by decide) with h2 | h2 <;> exact absurd h2 (by decide)

/-- C1 (amended): in every reachable state the surviving directions hold:
a Pass status carries a present grade strictly above 50 and a Fail status a
present grade at most 50 (so Pass ⟺ grade > 50 among graded statuses); the
converse direction "grade present ⟹ status ∈ {Pass, Fail}" fails once
`startWorking` (or a name-collision reminder) hits a graded assignment. -/
theorem C1_amended_invariant (w : World) (h : Reach w) : WInv w := by
  induction h with
  | init w hw =>
    intro s hs a ha
    rw [(hw.1 s hs).1] at ha
    exact absurd ha (List.not_mem_nil a)
  | step w w1 hr hstep ih => exact winv_step ih hstep

/-- Witness for the amended C1 at a concrete reachable world. -/
theorem C1_amended_invariant_witness : WInv adaGraded :=
  C1_amended_invariant adaGraded reach_adaGraded

/-! ## C4: the pending-timer bookkeeping over reachable states -/

/-- The timers the claim says an assignment identifies through its
`pendingTimer` handle: its auto-submit and auto-grade tasks. -/
def timersFor (w : World) (sid : Nat) (name : String) : List TimerTask :=
  w.sched.tasks.filter (fun t =>
    t.kind == TaskKind.autoSubmit sid name || t.kind == TaskKind.autoGrade sid name)

/-- C4 as stated: each assignment has at most one pending timer, and every
pending auto-transition for it is identified by its stored handle. -/
def C4Claim : Prop :=
  ∀ w, Reach w → ∀ sid name,
    (timersFor w sid name).length ≤ 1 ∧
    ∀ t ∈ w.sched.tasks,
      (t.kind = TaskKind.autoSubmit sid name ∨ t.kind = TaskKind.autoGrade sid name) →
      ∃ s a, w.students.get? sid = some s ∧ s.findAssignment name = some a ∧
        a.workTimeoutId = some t.id

/-- Every pending auto-submit task is identified by the owning assignment's
stored `_workTimeoutId`. -/
def AutoSubmitInv (w : World) : Prop :=
  ∀ t ∈ w.sched.tasks, ∀ sid name, t.kind = TaskKind.autoSubmit sid name →
    ∃ s a, w.students.get? sid = some s ∧ s.findAssignment name = some a ∧
      a.workTimeoutId = some t.id

def TasksFresh (w : World) : Prop := ∀ t ∈ w.sched.tasks, t.id < w.sched.nextId

def HandlesFresh (w : World) : Prop :=
  ∀ i s, w.students.get? i = some s → ∀ a ∈ s.assignmentStatuses,
    ∀ j, a.workTimeoutId = some j → j < w.sched.nextId

def IdsNodup (w : World) : Prop := (w.sched.tasks.map TimerTask.id).Nodup

def SchedInv (w : World) : Prop :=
  AutoSubmitInv w ∧ TasksFresh w ∧ HandlesFresh w ∧ IdsNodup w

/-! ### find? bookkeeping helpers -/

theorem find?_updateFirst_self {l : List Assignment} {nm : String} {a : Assignment}
    (h : l.find? (fun b => b.assignmentName == nm) = some a) (a1 : Assignment)
    (h1 : (a1.assignmentName == nm) = true) :
    (updateFirst nm (fun _ => a1) l).find? (fun b => b.assignmentName == nm) =
      some a1 := by
  induction l with
  | nil => simp at h
  | cons b l ih =>
    by_cases hb : (b.assignmentName == nm) = true
    · unfold updateFirst
      rw [if_pos hb]
      exact List.find?_cons_of_pos _ h1
    · rw [List.find?_cons_of_neg _ (by simp_all)] at h
      unfold updateFirst
      rw [if_neg (by simp_all)]
      rw [List.find?_cons_of_neg _ (by simp_all)]
      exact ih h

theorem find?_updateFirst_ne {l : List Assignment} {nm n : String} {a1 : Assignment}
    (hne : (a1.assignmentName == n) = false)
    (hrepl : ∀ b ∈ l, (b.assignmentName == nm) = true →
      (b.assignmentName == n) = false) :
    (updateFirst nm (fun _ => a1) l).find? (fun b => b.assignmentName == n) =
      l.find? (fun b => b.assignmentName == n) := by
  induction l with
  | nil => rfl
  | cons b l ih =>
    by_cases hb : (b.assignmentName == nm) = true
    · unfold updateFirst
      rw [if_pos hb]
      rw [List.find?_cons_of_neg _ (by simp_all),
        List.find?_cons_of_neg _ (by simp [hrepl b (List.mem_cons_self b l) hb])]
    · unfold updateFirst
      rw [if_neg (by simp_all)]
      rw [List.find?_cons, List.find?_cons]
      by_cases hbn : (b.assignmentName == n) = true
      · simp [hbn]
      · simp only [hbn]
        exact ih (fun c hc => hrepl c (List.mem_cons_of_mem b hc))

theorem findAssignment_recalc (s : Student) (n : String) :
    s.recalculateOverallGrade.findAssignment n = s.findAssignment n := by
  unfold Student.findAssignment
  rw [recalc_assignments]

theorem findAssignment_ensure_of_found {s : Student} {n : String} {b : Assignment}
    (nm : String) (h : s.findAssignment n = some b) :
    (s.ensure nm).1.findAssignment n = some b := by
  unfold Student.ensure
  cases hnm : s.findAssignment nm with
  | some a => exact h
  | none =>
    dsimp only
    unfold Student.findAssignment at h ⊢
    rw [List.find?_append, h]
    rfl

theorem findAssignment_ensure_self (s : Student) (nm : String) :
    ∃ c, (s.ensure nm).1.findAssignment nm = some c ∧
      (s.findAssignment nm = some c ∨
        (s.findAssignment nm = none ∧ c = Assignment.create nm)) := by
  unfold Student.ensure
  cases hnm : s.findAssignment nm with
  | some a =>
    exact ⟨a, hnm, Or.inl rfl⟩
  | none =>
    dsimp only
    refine ⟨Assignment.create nm, ?_, Or.inr ⟨rfl, rfl⟩⟩
    unfold Student.findAssignment at hnm ⊢
    rw [List.find?_append, hnm]
    simp [Assignment.create]

theorem mem_ensure {b : Assignment} {s : Student} {nm : String}
    (h : b ∈ (s.ensure nm).1.assignmentStatuses) :
    b ∈ s.assignmentStatuses ∨ b = Assignment.create nm := by
  unfold Student.ensure at h
  cases hnm : s.findAssignment nm with
  | some a =>
    rw [hnm] at h
    exact Or.inl h
  | none =>
    rw [hnm] at h
    dsimp only at h
    rcases List.mem_append.mp h with h | h
    · exact Or.inl h
    · exact Or.inr (List.mem_singleton.mp h)

theorem nodup_ids_filter (p : TimerTask → Bool) {l : List TimerTask}
    (h : (l.map TimerTask.id).Nodup) :
    ((l.filter p).map TimerTask.id).Nodup :=
  List.Nodup.sublist ((List.filter_sublist l).map TimerTask.id) h

theorem nodup_ids_append {l : List TimerTask} {x : TimerTask}
    (h : (l.map TimerTask.id).Nodup) (hx : ∀ t ∈ l, t.id ≠ x.id) :
    ((l ++ [x]).map TimerTask.id).Nodup := by
  rw [List.map_append]
  rw [List.nodup_append]
  refine ⟨h, List.nodup_singleton x.id, ?_⟩
  intro j hj hj1
  rcases List.mem_map.mp hj with ⟨t, ht, rfl⟩
  rcases List.mem_singleton.mp hj1 with h2
  exact hx t ht h2

theorem length_le_one_of_const_ids {F : List TimerTask}
    (hn : (F.map TimerTask.id).Nodup) (c : Nat) (hc : ∀ t ∈ F, t.id = c) :
    F.length ≤ 1 := by
  match F with
  | [] => simp
  | [t] => simp
  | t :: u :: F =>
    exfalso
    have h1 : t.id = c := hc t (by simp)
    have h2 : u.id = c := hc u (by simp)
    have h3 : t.id ∉ (u :: F).map TimerTask.id := (List.nodup_cons.mp hn).1
    exact h3 (by simp [h1, h2])

theorem beq_name_ne {nm n : String} (h : nm ≠ n) :
    ∀ b : Assignment, (b.assignmentName == nm) = true →
      (b.assignmentName == n) = false := by
  intro b hb
  rw [beq_iff_eq] at hb
  rw [hb]
  exact beq_eq_false_iff_ne.mpr h

/-- `updateAssignmentStatus` never moves or erases the timer handle of an
existing assignment (setGrade keeps `workTimeoutId`). -/
theorem handle_preserved_update {s : Student} {n : String} {b : Assignment}
    (nm : String) (g : JSVal) (hf : s.findAssignment n = some b) :
    ∃ b1, (s.updateAssignmentStatus nm g).1.findAssignment n = some b1 ∧
      b1.workTimeoutId = b.workTimeoutId := by
  unfold Student.updateAssignmentStatus
  dsimp only
  by_cases hg : g.isNumber = true
  · rw [if_pos hg]
    obtain ⟨c, hc, _⟩ := findAssignment_ensure_self s nm
    rw [hc]
    dsimp only
    rw [findAssignment_recalc]
    have hcnm : (c.assignmentName == nm) = true := by
      have := List.find?_some hc
      simpa [Student.findAssignment] using this
    by_cases hnn : nm = n
    · subst hnn
      have hb : (s.ensure nm).1.findAssignment nm = some b :=
        findAssignment_ensure_of_found nm hf
      rw [hc] at hb
      rcases Option.some.inj hb with rfl
      refine ⟨c.setGrade g.toNum, ?_, rfl⟩
      exact find?_updateFirst_self hc _ hcnm
    · refine ⟨b, ?_, rfl⟩
      have h1 : ((c.setGrade g.toNum).assignmentName == n) = false :=
        beq_name_ne hnn c hcnm
      have h2 : ∀ b2 ∈ (s.ensure nm).1.assignmentStatuses,
          (b2.assignmentName == nm) = true → (b2.assignmentName == n) = false :=
        fun b2 _ hb2 => beq_name_ne hnn b2 hb2
      have h3 := @find?_updateFirst_ne (s.ensure nm).1.assignmentStatuses nm n
        (c.setGrade g.toNum) h1 h2
      show (updateFirst nm (fun _ => c.setGrade g.toNum)
          (s.ensure nm).1.assignmentStatuses).find?
          (fun x => x.assignmentName == n) = some b
      rw [h3]
      exact findAssignment_ensure_of_found nm hf
  · rw [if_neg hg]
    exact ⟨b, findAssignment_ensure_of_found nm hf, rfl⟩

/-- Every timer handle present after `updateAssignmentStatus` was already
present before. -/
theorem handles_sub_update {s : Student} (nm : String) (g : JSVal) :
    ∀ b ∈ (s.updateAssignmentStatus nm g).1.assignmentStatuses, ∀ j,
      b.workTimeoutId = some j →
      ∃ c ∈ s.assignmentStatuses, c.workTimeoutId = some j := by
  intro b hb j hj
  unfold Student.updateAssignmentStatus at hb
  dsimp only at hb
  by_cases hg : g.isNumber = true
  · rw [if_pos hg] at hb
    obtain ⟨c, hc, _⟩ := findAssignment_ensure_self s nm
    rw [hc] at hb
    dsimp only at hb
    rw [recalc_assignments] at hb
    rcases mem_updateFirst hb with hb | ⟨c2, hc2, rfl⟩
    · rcases mem_ensure hb with hb | rfl
      · exact ⟨b, hb, hj⟩
      · simp [Assignment.create] at hj
    · have hcm : c ∈ (s.ensure nm).1.assignmentStatuses := by
        have := List.mem_of_find?_eq_some hc
        simpa [Student.findAssignment] using this
      rcases mem_ensure hcm with hcm | rfl
      · exact ⟨c, hcm, by simpa [Assignment.setGrade] using hj⟩
      · simp [Assignment.setGrade, Assignment.create] at hj
  · rw [if_neg hg] at hb
    rcases mem_ensure hb with hb | rfl
    · exact ⟨b, hb, hj⟩
    · simp [Assignment.create] at hj

theorem schedInv_updateStep {w : World} (h : SchedInv w) (i : Nat) (nm : String)
    (g : JSVal) : SchedInv (w.updateStep i nm g) := by
  obtain ⟨hA, hT, hH, hN⟩ := h
  unfold World.updateStep World.setStudent
  cases hget : w.students.get? i with
  | none => exact ⟨hA, hT, hH, hN⟩
  | some s =>
    dsimp only
    obtain ⟨hlt, _⟩ := List.get?_eq_some.mp hget
    refine ⟨?_, hT, ?_, hN⟩
    · intro t ht sid n hk
      obtain ⟨s0, a0, hs0, ha0, hid⟩ := hA t ht sid n hk
      by_cases hsi : sid = i
      · subst hsi
        rw [hget] at hs0
        rcases Option.some.inj hs0 with rfl
        obtain ⟨b1, hb1, hb1h⟩ := handle_preserved_update nm g ha0
        refine ⟨_, b1, List.get?_set_eq_of_lt _ hlt, hb1, by rw [hb1h]; exact hid⟩
      · exact ⟨s0, a0, by rw [List.get?_set_ne _ _ (Ne.symm hsi)]; exact hs0, ha0, hid⟩
    · intro i2 s2 hs2 b hb j hj
      by_cases hi2 : i2 = i
      · subst hi2
        rw [List.get?_set_eq_of_lt _ hlt] at hs2
        rcases Option.some.inj hs2 with rfl
        obtain ⟨c, hc, hcj⟩ := handles_sub_update nm g b hb j hj
        exact hH i2 s hget c hc j hcj
      · rw [List.get?_set_ne _ _ (Ne.symm hi2)] at hs2
        exact hH i2 s2 hs2 b hb j hj

theorem schedInv_getGradeStep {w : World} (h : SchedInv w) (i : Nat) :
    SchedInv (w.getGradeStep i) := by
  obtain ⟨hA, hT, hH, hN⟩ := h
  unfold World.getGradeStep World.setStudent
  cases hget : w.students.get? i with
  | none => exact ⟨hA, hT, hH, hN⟩
  | some s =>
    dsimp only
    obtain ⟨hlt, _⟩ := List.get?_eq_some.mp hget
    refine ⟨?_, hT, ?_, hN⟩
    · intro t ht sid n hk
      obtain ⟨s0, a0, hs0, ha0, hid⟩ := hA t ht sid n hk
      by_cases hsi : sid = i
      · subst hsi
        rw [hget] at hs0
        rcases Option.some.inj hs0 with rfl
        refine ⟨_, a0, List.get?_set_eq_of_lt _ hlt, ?_, hid⟩
        rw [findAssignment_recalc]
        exact ha0
      · exact ⟨s0, a0, by rw [List.get?_set_ne _ _ (Ne.symm hsi)]; exact hs0, ha0, hid⟩
    · intro i2 s2 hs2 b hb j hj
      by_cases hi2 : i2 = i
      · subst hi2
        rw [List.get?_set_eq_of_lt _ hlt] at hs2
        rcases Option.some.inj hs2 with rfl
        rw [recalc_assignments] at hb
        exact hH i2 s hget b hb j hj
      · rw [List.get?_set_ne _ _ (Ne.symm hi2)] at hs2
        exact hH i2 s2 hs2 b hb j hj

theorem schedInv_removeTask {w : World} (h : SchedInv w) (tid : Nat) :
    SchedInv (w.removeTask tid) := by
  obtain ⟨hA, hT, hH, hN⟩ := h
  unfold World.removeTask
  refine ⟨?_, ?_, ?_, nodup_ids_filter _ hN⟩
  · intro t ht sid n hk
    exact hA t (List.mem_filter.mp ht).1 sid n hk
  · intro t ht
    exact hT t (List.mem_filter.mp ht).1
  · intro i2 s2 hs2 b hb j hj
    exact hH i2 s2 hs2 b hb j hj

theorem clear_nextId (sch : Sched) (o : Option Nat) :
    (sch.clear o).nextId = sch.nextId := by
  unfold Sched.clear
  cases o <;> rfl

theorem mem_clear_sub {t : TimerTask} {sch : Sched} {o : Option Nat}
    (h : t ∈ (sch.clear o).tasks) : t ∈ sch.tasks := by
  unfold Sched.clear at h
  cases o with
  | none => exact h
  | some j => exact (List.mem_filter.mp h).1

theorem mem_clear_ne {t : TimerTask} {sch : Sched} {j : Nat}
    (h : t ∈ (sch.clear (some j)).tasks) : t.id ≠ j := by
  unfold Sched.clear at h
  have := (List.mem_filter.mp h).2
  simpa using this

theorem nodup_ids_clear {sch : Sched} (o : Option Nat)
    (h : (sch.tasks.map TimerTask.id).Nodup) :
    ((sch.clear o).tasks.map TimerTask.id).Nodup := by
  unfold Sched.clear
  cases o with
  | none => exact h
  | some j => exact nodup_ids_filter _ h

theorem schedInv_submitLike {w : World} (h : SchedInv w) {i : Nat} {s : Student}
    (nm : String) (hget : w.students.get? i = some s) :
    SchedInv { w with
      students := w.students.set i (s.submitAssignment i nm w.sched).1,
      sched := (s.submitAssignment i nm w.sched).2.1 } := by
  obtain ⟨hA, hT, hH, hN⟩ := h
  obtain ⟨hlt, _⟩ := List.get?_eq_some.mp hget
  unfold Student.submitAssignment
  dsimp only
  cases hfind : (s.ensure nm).1.findAssignment nm with
  | none =>
    exfalso
    obtain ⟨c, hc, _⟩ := findAssignment_ensure_self s nm
    rw [hc] at hfind
    exact Option.noConfusion hfind
  | some a =>
    dsimp only
    have hanm : (a.assignmentName == nm) = true := by
      simpa [Student.findAssignment] using List.find?_some hfind
    have hamem : a ∈ (s.ensure nm).1.assignmentStatuses := by
      simpa [Student.findAssignment] using List.mem_of_find?_eq_some hfind
    by_cases hterm : (a.status == "submitted" || a.status == "Pass" ||
        a.status == "Fail") = true
    · rw [if_pos hterm]
      refine ⟨?_, hT, ?_, hN⟩
      · intro t ht sid n hk
        obtain ⟨s0, b, hs0, hb, hid⟩ := hA t ht sid n hk
        by_cases hsi : sid = i
        · subst hsi
          rw [hget] at hs0
          rcases Option.some.inj hs0 with rfl
          exact ⟨_, b, List.get?_set_eq_of_lt _ hlt,
            findAssignment_ensure_of_found nm hb, hid⟩
        · exact ⟨s0, b, by rw [List.get?_set_ne _ _ (Ne.symm hsi)]; exact hs0,
            hb, hid⟩
      · intro i2 s2 hs2 b hb j hj
        by_cases hi2 : i2 = i
        · subst hi2
          rw [List.get?_set_eq_of_lt _ hlt] at hs2
          rcases Option.some.inj hs2 with rfl
          rcases mem_ensure hb with hb | rfl
          · exact hH i2 s hget b hb j hj
          · simp [Assignment.create] at hj
        · rw [List.get?_set_ne _ _ (Ne.symm hi2)] at hs2
          exact hH i2 s2 hs2 b hb j hj
    · rw [if_neg hterm]
      dsimp only [Sched.add]
      refine ⟨?_, ?_, ?_, ?_⟩
      · -- AutoSubmitInv
        intro t ht sid n hk
        dsimp only at ht
        rcases List.mem_append.mp ht with htl | htr
        · obtain ⟨s0, b, hs0, hb, hid⟩ := hA t (mem_clear_sub htl) sid n hk
          by_cases hsi : sid = i
          · subst hsi
            rw [hget] at hs0
            rcases Option.some.inj hs0 with rfl
            by_cases hnn : nm = n
            · exfalso
              subst hnn
              have hb2 := findAssignment_ensure_of_found nm hb
              rw [hfind] at hb2
              rcases Option.some.inj hb2 with rfl
              rw [hid] at htl
              exact mem_clear_ne htl rfl
            · refine ⟨_, b, List.get?_set_eq_of_lt _ hlt, ?_, hid⟩
              have h1 : ((⟨a.assignmentName, "submitted", a.grade, a.graded,
                  none⟩ : Assignment).assignmentName == n) = false :=
                beq_name_ne hnn a hanm
              have h3 := @find?_updateFirst_ne (s.ensure nm).1.assignmentStatuses
                nm n ⟨a.assignmentName, "submitted", a.grade, a.graded, none⟩ h1
                (fun b2 _ hb2 => beq_name_ne hnn b2 hb2)
              show (updateFirst nm _ (s.ensure nm).1.assignmentStatuses).find?
                (fun x => x.assignmentName == n) = some b
              rw [h3]
              exact findAssignment_ensure_of_found nm hb
          · refine ⟨s0, b, ?_, hb, hid⟩
            rw [List.get?_set_ne _ _ (Ne.symm hsi)]
            exact hs0
        · rcases List.mem_singleton.mp htr with rfl
          exact absurd hk (by simp)
      · -- TasksFresh
        intro t ht
        dsimp only at ht ⊢
        rw [clear_nextId]
        rcases List.mem_append.mp ht with ht | ht
        · have := hT t (mem_clear_sub ht)
          omega
        · rcases List.mem_singleton.mp ht with rfl
          dsimp only
          rw [clear_nextId]
          omega
      · -- HandlesFresh
        intro i2 s2 hs2 b hb j hj
        dsimp only at hs2 ⊢
        have hb2 : j < w.sched.nextId := by
          by_cases hi2 : i2 = i
          · subst hi2
            rw [List.get?_set_eq_of_lt _ hlt] at hs2
            rcases Option.some.inj hs2 with rfl
            rcases mem_updateFirst hb with hb | ⟨c, hc, rfl⟩
            · rcases mem_ensure hb with hb | rfl
              · exact hH i2 s hget b hb j hj
              · simp [Assignment.create] at hj
            · simp at hj
          · rw [List.get?_set_ne _ _ (Ne.symm hi2)] at hs2
            exact hH i2 s2 hs2 b hb j hj
        rw [clear_nextId]
        omega
      · -- IdsNodup
        show (((w.sched.clear a.workTimeoutId).tasks ++
          [TimerTask.mk (w.sched.clear a.workTimeoutId).nextId
            (TaskKind.autoGrade i nm)]).map TimerTask.id).Nodup
        refine nodup_ids_append (nodup_ids_clear _ hN) ?_
        intro t ht
        have h1 := hT t (mem_clear_sub ht)
        have h2 : (w.sched.clear a.workTimeoutId).nextId = w.sched.nextId :=
          clear_nextId _ _
        dsimp only
        omega

theorem schedInv_submitStep {w : World} (h : SchedInv w) (i : Nat) (nm : String) :
    SchedInv (w.submitStep i nm) := by
  unfold World.submitStep
  cases hget : w.students.get? i with
  | none => exact h
  | some s => exact schedInv_submitLike h nm hget

theorem schedInv_fireAutoSubmit {w : World} (h : SchedInv w) (tid sid : Nat)
    (nm : String) : SchedInv (w.fireAutoSubmit tid sid nm) := by
  have h1 := schedInv_removeTask h tid
  unfold World.fireAutoSubmit
  dsimp only
  cases hget : (w.removeTask tid).students.get? sid with
  | none => exact h1
  | some s =>
    dsimp only
    cases hfind : s.findAssignment nm with
    | none => exact h1
    | some a =>
      dsimp only
      by_cases hst : (a.status == "working" || a.status == "released" ||
          a.status == "final reminder") = true
      · rw [if_pos hst]
        exact schedInv_submitLike h1 nm hget
      · rw [if_neg hst]
        exact h1

theorem schedInv_fireAutoGrade {w : World} (h : SchedInv w) (tid sid : Nat)
    (nm : String) (g : Grade) : SchedInv (w.fireAutoGrade tid sid nm g) := by
  have h1 := schedInv_removeTask h tid
  obtain ⟨hA, hT, hH, hN⟩ := h1
  unfold World.fireAutoGrade World.setStudent
  dsimp only
  cases hget : (w.removeTask tid).students.get? sid with
  | none => exact ⟨hA, hT, hH, hN⟩
  | some s =>
    dsimp only
    cases hfind : s.findAssignment nm with
    | none => exact ⟨hA, hT, hH, hN⟩
    | some a =>
      dsimp only
      by_cases hg : a.graded = true
      · rw [if_pos hg]
        exact ⟨hA, hT, hH, hN⟩
      · rw [if_neg hg]
        obtain ⟨hlt, _⟩ := List.get?_eq_some.mp hget
        have hanm : (a.assignmentName == nm) = true := by
          simpa [Student.findAssignment] using List.find?_some hfind
        refine ⟨?_, hT, ?_, hN⟩
        · intro t ht sid2 n hk
          dsimp only at ht
          obtain ⟨s0, b, hs0, hb, hid⟩ := hA t ht sid2 n hk
          by_cases hsi : sid2 = sid
          · subst hsi
            rw [hget] at hs0
            rcases Option.some.inj hs0 with rfl
            by_cases hnn : nm = n
            · subst hnn
              rw [hfind] at hb
              rcases Option.some.inj hb with rfl
              refine ⟨_, a.setGrade g, List.get?_set_eq_of_lt _ hlt, ?_, hid⟩
              rw [findAssignment_recalc]
              exact find?_updateFirst_self hfind (a.setGrade g) hanm
            · refine ⟨_, b, List.get?_set_eq_of_lt _ hlt, ?_, hid⟩
              rw [findAssignment_recalc]
              have h3 := @find?_updateFirst_ne s.assignmentStatuses nm n
                (a.setGrade g) (beq_name_ne hnn a hanm)
                (fun b2 _ hb2 => beq_name_ne hnn b2 hb2)
              show (updateFirst nm (fun _ => a.setGrade g)
                s.assignmentStatuses).find?
                (fun x => x.assignmentName == n) = some b
              rw [h3]
              exact hb
          · refine ⟨s0, b, ?_, hb, hid⟩
            rw [List.get?_set_ne _ _ (Ne.symm hsi)]
            exact hs0
        · intro i2 s2 hs2 b hb j hj
          dsimp only at hs2 ⊢
          by_cases hi2 : i2 = sid
          · subst hi2
            rw [List.get?_set_eq_of_lt _ hlt] at hs2
            rcases Option.some.inj hs2 with rfl
            rw [recalc_assignments] at hb
            rcases mem_updateFirst hb with hb | ⟨c, hc, rfl⟩
            · exact hH i2 s hget b hb j hj
            · have hmem : a ∈ s.assignmentStatuses := by
                simpa [Student.findAssignment] using
                  List.mem_of_find?_eq_some hfind
              exact hH i2 s hget a hmem j (by simpa [Assignment.setGrade] using hj)
          · rw [List.get?_set_ne _ _ (Ne.symm hi2)] at hs2
            exact hH i2 s2 hs2 b hb j hj

theorem schedInv_workStep {w : World} (h : SchedInv w) (i : Nat) (nm : String) :
    SchedInv (w.workStep i nm) := by
  obtain ⟨hA, hT, hH, hN⟩ := h
  unfold World.workStep
  cases hget : w.students.get? i with
  | none => exact ⟨hA, hT, hH, hN⟩
  | some s =>
    dsimp only
    obtain ⟨hlt, _⟩ := List.get?_eq_some.mp hget
    unfold Student.startWorking
    dsimp only
    cases hfind : (s.ensure nm).1.findAssignment nm with
    | none =>
      exfalso
      obtain ⟨c, hc, _⟩ := findAssignment_ensure_self s nm
      rw [hc] at hfind
      exact Option.noConfusion hfind
    | some a =>
      dsimp only [Sched.add]
      have hanm : (a.assignmentName == nm) = true := by
        simpa [Student.findAssignment] using List.find?_some hfind
      have hamem : a ∈ (s.ensure nm).1.assignmentStatuses := by
        simpa [Student.findAssignment] using List.mem_of_find?_eq_some hfind
      have hfa1 : (updateFirst nm
          (fun _ => (⟨a.assignmentName, "working", a.grade, a.graded,
            a.workTimeoutId⟩ : Assignment)) (s.ensure nm).1.assignmentStatuses).find?
          (fun b => b.assignmentName == nm) =
          some ⟨a.assignmentName, "working", a.grade, a.graded, a.workTimeoutId⟩ :=
        find?_updateFirst_self hfind _ hanm
      refine ⟨?_, ?_, ?_, ?_⟩
      · -- AutoSubmitInv
        intro t ht sid n hk
        dsimp only at ht
        rcases List.mem_append.mp ht with htl | htr
        · obtain ⟨s0, b, hs0, hb, hid⟩ := hA t (mem_clear_sub htl) sid n hk
          by_cases hsi : sid = i
          · subst hsi
            rw [hget] at hs0
            rcases Option.some.inj hs0 with rfl
            by_cases hnn : nm = n
            · exfalso
              subst hnn
              have hb2 := findAssignment_ensure_of_found nm hb
              rw [hfind] at hb2
              rcases Option.some.inj hb2 with rfl
              rw [hid] at htl
              exact mem_clear_ne htl rfl
            · refine ⟨_, b, List.get?_set_eq_of_lt _ hlt, ?_, hid⟩
              have hrepl : ∀ b2 : Assignment, (b2.assignmentName == nm) = true →
                  (b2.assignmentName == n) = false := beq_name_ne hnn
              have h3a := @find?_updateFirst_ne
                (updateFirst nm (fun _ => (⟨a.assignmentName, "working", a.grade,
                  a.graded, a.workTimeoutId⟩ : Assignment))
                  (s.ensure nm).1.assignmentStatuses) nm n
                ⟨a.assignmentName, "working", a.grade, a.graded,
                  some (w.sched.clear a.workTimeoutId).nextId⟩
                (hrepl _ hanm) (fun b2 _ hb2 => hrepl b2 hb2)
              have h3b := @find?_updateFirst_ne (s.ensure nm).1.assignmentStatuses
                nm n ⟨a.assignmentName, "working", a.grade, a.graded,
                  a.workTimeoutId⟩ (hrepl _ hanm) (fun b2 _ hb2 => hrepl b2 hb2)
              show (updateFirst nm _ (updateFirst nm _
                (s.ensure nm).1.assignmentStatuses)).find?
                (fun x => x.assignmentName == n) = some b
              rw [h3a, h3b]
              exact findAssignment_ensure_of_found nm hb
          · refine ⟨s0, b, ?_, hb, hid⟩
            rw [List.get?_set_ne _ _ (Ne.symm hsi)]
            exact hs0
        · rcases List.mem_singleton.mp htr with rfl
          dsimp only at hk
          rcases hk with ⟨rfl, rfl⟩
          refine ⟨_, ⟨a.assignmentName, "working", a.grade, a.graded,
            some (w.sched.clear a.workTimeoutId).nextId⟩,
            List.get?_set_eq_of_lt _ hlt, ?_, rfl⟩
          exact find?_updateFirst_self hfa1 _ hanm
      · -- TasksFresh
        intro t ht
        dsimp only at ht ⊢
        rw [clear_nextId]
        rcases List.mem_append.mp ht with htl | htr
        · have := hT t (mem_clear_sub htl)
          omega
        · rcases List.mem_singleton.mp htr with rfl
          dsimp only
          rw [clear_nextId]
          omega
      · -- HandlesFresh
        intro i2 s2 hs2 b hb j hj
        dsimp only at hs2 ⊢
        rw [clear_nextId]
        by_cases hi2 : i2 = i
        · subst hi2
          rw [List.get?_set_eq_of_lt _ hlt] at hs2
          rcases Option.some.inj hs2 with rfl
          rcases mem_updateFirst hb with hb | ⟨c, hc, rfl⟩
          · rcases mem_updateFirst hb with hb | ⟨c, hc, rfl⟩
            · rcases mem_ensure hb with hb | rfl
              · have := hH i2 s hget b hb j hj
                omega
              · simp [Assignment.create] at hj
            · rcases mem_ensure hamem with hma | hcreate
              · have := hH i2 s hget a hma j (by simpa using hj)
                omega
              · rw [hcreate] at hj
                simp [Assignment.create] at hj
          · rcases Option.some.inj (by simpa using hj) with rfl
            rw [clear_nextId]
            omega
        · rw [List.get?_set_ne _ _ (Ne.symm hi2)] at hs2
          have := hH i2 s2 hs2 b hb j hj
          omega
      · -- IdsNodup
        show (((w.sched.clear a.workTimeoutId).tasks ++
          [TimerTask.mk (w.sched.clear a.workTimeoutId).nextId
            (TaskKind.autoSubmit i nm)]).map TimerTask.id).Nodup
        refine nodup_ids_append (nodup_ids_clear _ hN) ?_
        intro t ht
        have h1 := hT t (mem_clear_sub ht)
        have h2 : (w.sched.clear a.workTimeoutId).nextId = w.sched.nextId :=
          clear_nextId _ _
        dsimp only
        omega

theorem update_undef_eq_ensure (s : Student) (nm : String) :
    s.updateAssignmentStatus nm JSVal.undef = s.ensure nm := rfl

theorem schedInv_reminderCore {w : World} (h : SchedInv w) {i : Nat}
    {s s1 : Student} (name : String) (hget : w.students.get? i = some s)
    (hpres : ∀ n b, s.findAssignment n = some b → s1.findAssignment n = some b)
    (hmem1 : ∀ b ∈ s1.assignmentStatuses,
      b ∈ s.assignmentStatuses ∨ b = Assignment.create name)
    {a : Assignment} (hf1 : s1.findAssignment name = some a) :
    SchedInv (World.mk
      (w.students.set i ((Student.mk s1.fullName s1.email
        (updateFirst name (fun _ => Assignment.mk a.assignmentName
          "final reminder" a.grade a.graded none) s1.assignmentStatuses)
        s1.overallGrade s1.observerHasNotify).submitAssignment i name
        (w.sched.clear a.workTimeoutId)).1)
      ((Student.mk s1.fullName s1.email
        (updateFirst name (fun _ => Assignment.mk a.assignmentName
          "final reminder" a.grade a.graded none) s1.assignmentStatuses)
        s1.overallGrade s1.observerHasNotify).submitAssignment i name
        (w.sched.clear a.workTimeoutId)).2.1
      w.classObserverHasNotify) := by
  obtain ⟨hA, hT, hH, hN⟩ := h
  obtain ⟨hlt, _⟩ := List.get?_eq_some.mp hget
  have hanm : (a.assignmentName == name) = true := by
    simpa [Student.findAssignment] using List.find?_some hf1
  have hMid : SchedInv (World.mk
      (w.students.set i (Student.mk s1.fullName s1.email
        (updateFirst name (fun _ => Assignment.mk a.assignmentName
          "final reminder" a.grade a.graded none) s1.assignmentStatuses)
        s1.overallGrade s1.observerHasNotify))
      (w.sched.clear a.workTimeoutId)
      w.classObserverHasNotify) := by
    refine ⟨?_, ?_, ?_, nodup_ids_clear _ hN⟩
    · intro t ht sid n hk
      dsimp only at ht
      obtain ⟨s0, b, hs0, hb, hid⟩ := hA t (mem_clear_sub ht) sid n hk
      by_cases hsi : sid = i
      · subst hsi
        rw [hget] at hs0
        rcases Option.some.inj hs0 with rfl
        by_cases hnn : name = n
        · exfalso
          subst hnn
          have hb2 := hpres name b hb
          rw [hf1] at hb2
          rcases Option.some.inj hb2 with rfl
          rw [hid] at ht
          exact mem_clear_ne ht rfl
        · refine ⟨_, b, List.get?_set_eq_of_lt _ hlt, ?_, hid⟩
          have hrepl : ∀ b2 : Assignment, (b2.assignmentName == name) = true →
              (b2.assignmentName == n) = false := beq_name_ne hnn
          have h3 := @find?_updateFirst_ne s1.assignmentStatuses name n
            ⟨a.assignmentName, "final reminder", a.grade, a.graded, none⟩
            (hrepl _ hanm) (fun b2 _ hb2 => hrepl b2 hb2)
          show (updateFirst name _ s1.assignmentStatuses).find?
            (fun x => x.assignmentName == n) = some b
          rw [h3]
          exact hpres n b hb
      · refine ⟨s0, b, ?_, hb, hid⟩
        rw [List.get?_set_ne _ _ (Ne.symm hsi)]
        exact hs0
    · intro t ht
      dsimp only at ht ⊢
      rw [clear_nextId]
      exact hT t (mem_clear_sub ht)
    · intro i2 s2 hs2 b hb j hj
      dsimp only at hs2 ⊢
      rw [clear_nextId]
      by_cases hi2 : i2 = i
      · subst hi2
        rw [List.get?_set_eq_of_lt _ hlt] at hs2
        rcases Option.some.inj hs2 with rfl
        rcases mem_updateFirst hb with hb | ⟨c, hc, rfl⟩
        · rcases hmem1 b hb with hb | rfl
          · exact hH i2 s hget b hb j hj
          · simp [Assignment.create] at hj
        · simp at hj
      · rw [List.get?_set_ne _ _ (Ne.symm hi2)] at hs2
        exact hH i2 s2 hs2 b hb j hj
  have hgetMid : (World.mk
      (w.students.set i (Student.mk s1.fullName s1.email
        (updateFirst name (fun _ => Assignment.mk a.assignmentName
          "final reminder" a.grade a.graded none) s1.assignmentStatuses)
        s1.overallGrade s1.observerHasNotify))
      (w.sched.clear a.workTimeoutId)
      w.classObserverHasNotify).students.get? i =
      some (Student.mk s1.fullName s1.email
        (updateFirst name (fun _ => Assignment.mk a.assignmentName
          "final reminder" a.grade a.graded none) s1.assignmentStatuses)
        s1.overallGrade s1.observerHasNotify) := by
    dsimp only
    exact List.get?_set_eq_of_lt _ hlt
  have hfin := schedInv_submitLike hMid name hgetMid
  dsimp only at hfin
  rw [List.set_set] at hfin
  exact hfin

theorem schedInv_sendReminderOne {w : World} (h : SchedInv w) (name : String)
    (out : List String) (i : Nat) : SchedInv (w.sendReminderOne name out i) := by
  unfold World.sendReminderOne World.setStudent
  cases hget : w.students.get? i with
  | none => exact h
  | some s =>
    dsimp only
    by_cases hcon : out.contains s.fullName = true
    · rw [if_pos hcon]
      by_cases hfs : (s.findAssignment name).isSome = true
      · rw [if_pos hfs]
        cases hf1 : s.findAssignment name with
        | none =>
          rw [hf1] at hfs
          exact absurd hfs (by simp)
        | some a2 =>
          dsimp only
          exact schedInv_reminderCore h name hget (fun n b hb => hb)
            (fun b hb => Or.inl hb) hf1
      · rw [if_neg hfs]
        rw [update_undef_eq_ensure]
        cases hf1 : (s.ensure name).1.findAssignment name with
        | none =>
          exfalso
          obtain ⟨c, hc, _⟩ := findAssignment_ensure_self s name
          rw [hc] at hf1
          exact Option.noConfusion hf1
        | some a2 =>
          dsimp only
          exact schedInv_reminderCore h name hget
            (fun n b hb => findAssignment_ensure_of_found name hb)
            (fun b hb => mem_ensure hb) hf1
    · rw [if_neg hcon]
      exact h

theorem schedInv_reminderFold (name : String) (out : List String) :
    ∀ (L : List Nat) (w : World), SchedInv w →
      SchedInv (L.foldl (fun w1 i => w1.sendReminderOne name out i) w) := by
  intro L
  induction L with
  | nil => intro w h; exact h
  | cons i L ih =>
    intro w h
    exact ih _ (schedInv_sendReminderOne h name out i)

theorem schedInv_sendReminder {w : World} (h : SchedInv w) (name : String) :
    SchedInv (w.sendReminder name) := by
  unfold World.sendReminder
  exact schedInv_reminderFold name _ _ w h

theorem schedInv_step {w w1 : World} (h : SchedInv w) (hs : Step w w1) :
    SchedInv w1 := by
  cases hs with
  | update i name g => exact schedInv_updateStep h i name g
  | work i name => exact schedInv_workStep h i name
  | submit i name => exact schedInv_submitStep h i name
  | getGrade i => exact schedInv_getGradeStep h i
  | remind name => exact schedInv_sendReminder h name
  | fireSubmit t ht sid name hk => exact schedInv_fireAutoSubmit h t.id sid name
  | fireGrade t ht sid name hk g hg => exact schedInv_fireAutoGrade h t.id sid name g

theorem schedInv_reach {w : World} (h : Reach w) : SchedInv w := by
  induction h with
  | init w hw =>
    obtain ⟨hstu, htasks, hnext⟩ := hw
    refine ⟨?_, ?_, ?_, ?_⟩
    · intro t ht
      rw [htasks] at ht
      exact absurd ht (List.not_mem_nil t)
    · intro t ht
      rw [htasks] at ht
      exact absurd ht (List.not_mem_nil t)
    · intro i s hs b hb j hj
      rw [(hstu s (List.get?_mem hs)).1] at hb
      exact absurd hb (List.not_mem_nil b)
    · show (w.sched.tasks.map TimerTask.id).Nodup
      rw [htasks]
      exact List.nodup_nil
  | step w w1 hr hstep ih => exact schedInv_step ih hstep

def timerWorld1 : World := adaWorld.workStep 0 "HW"

def timerWorld2 : World := timerWorld1.submitStep 0 "HW"

/-- startWorking; submitAssignment; startWorking again: the auto-grade timer
from the submit and the new auto-submit timer are then pending together. -/
def timerWorld3 : World := timerWorld2.workStep 0 "HW"

theorem reach_timerWorld3 : Reach timerWorld3 :=
  Reach.step _ _
    (Reach.step _ _
      (Reach.step _ _ (Reach.init adaWorld adaWorld_init)
        (Step.work adaWorld 0 "HW"))
      (Step.submit timerWorld1 0 "HW"))
    (Step.work timerWorld2 0 "HW")

/-- C4 counterexample: after startWorking; submitAssignment; startWorking, the
assignment has two pending timers (an auto-grade task the code never recorded
in `_workTimeoutId`, plus a fresh auto-submit task), so neither "at most one
pending timer" nor "identified by the handle" holds. -/
theorem C4_counterexample : ¬ C4Claim := by
  intro h
  have h1 := (h timerWorld3 reach_timerWorld3 0 "HW").1
  exact absurd h1 (by decide)

/-- C4 (amended): in every reachable state, every pending auto-submit timer is
identified by its assignment's `_workTimeoutId` handle, and each assignment
holds at most one pending auto-submit timer.  The auto-grade timer scheduled by
`submitAssignment` is not recorded in the handle, so an auto-grade and an
auto-submit timer can be pending simultaneously for the same assignment. -/
theorem C4_amended_autoSubmit_timers (w : World) (h : Reach w) :
    (∀ t ∈ w.sched.tasks, ∀ sid name, t.kind = TaskKind.autoSubmit sid name →
      ∃ s a, w.students.get? sid = some s ∧ s.findAssignment name = some a ∧
        a.workTimeoutId = some t.id) ∧
    (∀ sid name, (w.sched.tasks.filter
      (fun t => t.kind == TaskKind.autoSubmit sid name)).length ≤ 1) := by
  obtain ⟨hA, hT, hH, hN⟩ := schedInv_reach h
  refine ⟨hA, ?_⟩
  intro sid name
  cases hget : w.students.get? sid with
  | none =>
    have he : w.sched.tasks.filter
        (fun t => t.kind == TaskKind.autoSubmit sid name) = [] := by
      rw [List.filter_eq_nil_iff]
      intro t ht hkt
      obtain ⟨s, a, hs, _, _⟩ := hA t ht sid name (by simpa using hkt)
      rw [hget] at hs
      exact Option.noConfusion hs
    rw [he]
    simp
  | some s =>
    cases hfind : s.findAssignment name with
    | none =>
      have he : w.sched.tasks.filter
          (fun t => t.kind == TaskKind.autoSubmit sid name) = [] := by
        rw [List.filter_eq_nil_iff]
        intro t ht hkt
        obtain ⟨s2, a, hs2, ha, _⟩ := hA t ht sid name (by simpa using hkt)
        rw [hget] at hs2
        rcases Option.some.inj hs2 with rfl
        rw [hfind] at ha
        exact Option.noConfusion ha
      rw [he]
      simp
    | some a =>
      cases hto : a.workTimeoutId with
      | none =>
        have he : w.sched.tasks.filter
            (fun t => t.kind == TaskKind.autoSubmit sid name) = [] := by
          rw [List.filter_eq_nil_iff]
          intro t ht hkt
          obtain ⟨s2, a2, hs2, ha2, hid2⟩ := hA t ht sid name (by simpa using hkt)
          rw [hget] at hs2
          rcases Option.some.inj hs2 with rfl
          rw [hfind] at ha2
          rcases Option.some.inj ha2 with rfl
          rw [hto] at hid2
          exact Option.noConfusion hid2
        rw [he]
        simp
      | some c =>
        apply length_le_one_of_const_ids (nodup_ids_filter _ hN) c
        intro t ht
        obtain ⟨ht1, ht2⟩ := List.mem_filter.mp ht
        obtain ⟨s2, a2, hs2, ha2, hid2⟩ := hA t ht1 sid name (by simpa using ht2)
        rw [hget] at hs2
        rcases Option.some.inj hs2 with rfl
        rw [hfind] at ha2
        rcases Option.some.inj ha2 with rfl
        rw [hto] at hid2
        exact (Option.some.inj hid2).symm

/-- Witness for the amended C4 at the concrete two-timer run. -/
theorem C4_amended_autoSubmit_timers_witness :
    (∀ t ∈ timerWorld3.sched.tasks, ∀ sid name,
      t.kind = TaskKind.autoSubmit sid name →
      ∃ s a, timerWorld3.students.get? sid = some s ∧
        s.findAssignment name = some a ∧ a.workTimeoutId = some t.id) ∧
    (∀ sid name, (timerWorld3.sched.tasks.filter
      (fun t => t.kind == TaskKind.autoSubmit sid name)).length ≤ 1) :=
  C4_amended_autoSubmit_timers timerWorld3 reach_timerWorld3

/-! ## C9: sendReminder selects by full name, not identity -/

theorem updateFirst_append_nomatch {l : List Assignment} {name : String}
    (h : ∀ x ∈ l, ¬(x.assignmentName == name) = true)
    (f : Assignment → Assignment) (b : Assignment)
    (hb : (b.assignmentName == name) = true) :
    updateFirst name f (l ++ [b]) = l ++ [f b] := by
  induction l with
  | nil =>
    show updateFirst name f [b] = [f b]
    unfold updateFirst
    rw [if_pos hb]
  | cons c l ih =>
    show updateFirst name f (c :: (l ++ [b])) = c :: (l ++ [f b])
    unfold updateFirst
    rw [if_neg (h c (List.mem_cons_self c l))]
    rw [ih (fun x hx => h x (List.mem_cons_of_mem c hx))]

/-- A reminder pass over a student index other than `j` leaves student `j`
untouched. -/
theorem sendReminderOne_get_other {w : World} {k j : Nat} (hkj : k ≠ j)
    (name : String) (out : List String) :
    (w.sendReminderOne name out k).students.get? j = w.students.get? j := by
  unfold World.sendReminderOne World.setStudent
  cases hget : w.students.get? k with
  | none => rfl
  | some s =>
    dsimp only
    by_cases hcon : out.contains s.fullName = true
    · rw [if_pos hcon]
      cases hf1 : (if (s.findAssignment name).isSome then s
          else (s.updateAssignmentStatus name JSVal.undef).1).findAssignment name with
      | none =>
        dsimp only
        exact List.get?_set_ne _ _ hkj
      | some a =>
        dsimp only
        exact List.get?_set_ne _ _ hkj
    · rw [if_neg hcon]

/-- A reminder pass over index `j` on a student whose full name is in the
outstanding list but who does not yet have the assignment: the assignment is
created and ends up submitted with no grade, no graded flag and no stored
timer. -/
theorem sendReminderOne_processes {w : World} {j : Nat} {sj : Student}
    (name : String) (out : List String)
    (hget : w.students.get? j = some sj)
    (hnone : sj.findAssignment name = none)
    (hcon : out.contains sj.fullName = true) :
    (w.sendReminderOne name out j).students.get? j =
      some (Student.mk sj.fullName sj.email
        (sj.assignmentStatuses ++ [Assignment.mk name "submitted" none false none])
        sj.overallGrade sj.observerHasNotify) := by
  obtain ⟨hlt, _⟩ := List.get?_eq_some.mp hget
  have hnone' : sj.assignmentStatuses.find?
      (fun b => b.assignmentName == name) = none := hnone
  have hmatch : ∀ x ∈ sj.assignmentStatuses,
      ¬(x.assignmentName == name) = true := by
    intro x hx
    exact List.find?_eq_none.mp hnone' x hx
  unfold World.sendReminderOne World.setStudent
  rw [hget]
  dsimp only
  rw [if_pos hcon]
  rw [if_neg (by rw [hnone]; simp)]
  rw [update_undef_eq_ensure]
  have hens : (sj.ensure name).1 = Student.mk sj.fullName sj.email
      (sj.assignmentStatuses ++ [Assignment.create name]) sj.overallGrade
      sj.observerHasNotify := by
    unfold Student.ensure
    rw [hnone]
  rw [hens]
  have hfind2 : (Student.mk sj.fullName sj.email
      (sj.assignmentStatuses ++ [Assignment.create name]) sj.overallGrade
      sj.observerHasNotify).findAssignment name = some (Assignment.create name) := by
    unfold Student.findAssignment
    dsimp only
    rw [List.find?_append, hnone']
    simp [Assignment.create]
  rw [hfind2]
  dsimp only [Assignment.create]
  rw [updateFirst_append_nomatch hmatch _ _ (by simp)]
  unfold Student.submitAssignment
  dsimp only
  have hfind3 : (Student.mk sj.fullName sj.email
      (sj.assignmentStatuses ++ [Assignment.mk name "final reminder" none false
        none]) sj.overallGrade sj.observerHasNotify).findAssignment name =
      some (Assignment.mk name "final reminder" none false none) := by
    unfold Student.findAssignment
    dsimp only
    rw [List.find?_append, hnone']
    simp
  have hens2 : ((Student.mk sj.fullName sj.email
      (sj.assignmentStatuses ++ [Assignment.mk name "final reminder" none false
        none]) sj.overallGrade sj.observerHasNotify).ensure name).1 =
      Student.mk sj.fullName sj.email
        (sj.assignmentStatuses ++ [Assignment.mk name "final reminder" none false
          none]) sj.overallGrade sj.observerHasNotify := by
    unfold Student.ensure
    rw [hfind3]
  rw [hens2, hfind3]
  dsimp only
  rw [if_neg (by decide)]
  rw [updateFirst_append_nomatch hmatch _ _ (by simp)]
  dsimp only
  exact List.get?_set_eq_of_lt _ hlt

theorem reminderFold_get (name : String) (out : List String) {j : Nat}
    {sj : Student} (hnone : sj.findAssignment name = none)
    (hcon : out.contains sj.fullName = true) :
    ∀ (n : Nat) (w : World), w.students.get? j = some sj →
      ((List.range n).foldl (fun w1 i => w1.sendReminderOne name out i)
        w).students.get? j =
        if j < n then
          some (Student.mk sj.fullName sj.email
            (sj.assignmentStatuses ++
              [Assignment.mk name "submitted" none false none])
            sj.overallGrade sj.observerHasNotify)
        else some sj := by
  intro n
  induction n with
  | zero =>
    intro w hw
    simpa using hw
  | succ n ih =>
    intro w hw
    rw [List.range_succ, List.foldl_append]
    simp only [List.foldl_cons, List.foldl_nil]
    by_cases hjn : j < n
    · have hne : n ≠ j := by omega
      rw [sendReminderOne_get_other hne name out, ih w hw, if_pos hjn,
        if_pos (by omega)]
    · by_cases hjn2 : j = n
      · subst hjn2
        have h1 : ((List.range j).foldl
            (fun w1 i => w1.sendReminderOne name out i) w).students.get? j =
            some sj := by
          rw [ih w hw]
          simp
        rw [sendReminderOne_processes name out h1 hnone hcon,
          if_pos (Nat.lt_succ_self j)]
      · have hne : n ≠ j := fun hx => hjn2 hx.symm
        rw [sendReminderOne_get_other hne name out, ih w hw, if_neg hjn,
          if_neg (by omega)]

/-- C9: `sendReminder` selects students by full name.  If two distinct roster
entries share a full name, one of whom has the assignment outstanding while the
other never had it, the other student is also processed: the assignment is
created on them (with a released notification when their observer works) and
immediately submitted. -/
theorem C9_sendReminder_name_collision (w : World) (name : String) (i j : Nat)
    (si sj : Student) (ai : Assignment)
    (hname : name ≠ "")
    (hij : i ≠ j)
    (hsi : w.students.get? i = some si)
    (hsj : w.students.get? j = some sj)
    (hfn : si.fullName = sj.fullName)
    (hai : si.findAssignment name = some ai)
    (hout : ¬(ai.status = "submitted" ∨ ai.status = "Pass" ∨ ai.status = "Fail"))
    (hnone : sj.findAssignment name = none) :
    (w.sendReminder name).students.get? j =
      some (Student.mk sj.fullName sj.email
        (sj.assignmentStatuses ++ [Assignment.mk name "submitted" none false none])
        sj.overallGrade sj.observerHasNotify) ∧
    (sj.observerHasNotify = true →
      (sj.updateAssignmentStatus name JSVal.undef).2 =
        [Observer.notifyMsg sj.fullName name "released" false]) := by
  have hjlen : j < w.students.length := (List.get?_eq_some.mp hsj).1
  have hstat : (ai.status == "submitted" || ai.status == "Pass" ||
      ai.status == "Fail") = false := by
    rw [Bool.eq_false_iff]
    intro hx
    simp only [Bool.or_eq_true, beq_iff_eq] at hx
    exact hout (by tauto)
  have hmem : sj.fullName ∈ w.findOutstandingAssignments (some name) := by
    unfold World.findOutstandingAssignments
    rw [if_pos (by simpa using hname)]
    refine List.mem_map.mpr ⟨si, ?_, hfn⟩
    refine List.mem_filter.mpr ⟨List.get?_mem hsi, ?_⟩
    show (match si.findAssignment ((some name).getD "") with
      | none => false
      | some a => !(a.status == "submitted" || a.status == "Pass" ||
          a.status == "Fail")) = true
    rw [Option.getD_some, hai]
    dsimp only
    rw [hstat]
    rfl
  have hcon : (w.findOutstandingAssignments (some name)).contains
      sj.fullName = true := List.elem_iff.mpr hmem
  constructor
  · unfold World.sendReminder
    rw [reminderFold_get name (w.findOutstandingAssignments (some name)) hnone
      hcon w.students.length w hsj]
    rw [if_pos hjlen]
  · intro hobs
    rw [update_undef_eq_ensure]
    unfold Student.ensure
    rw [hnone]
    simp [Student.notifyLog, hobs, Assignment.create]

/-- Witness for C9 at the concrete two-Bob roster. -/
theorem C9_sendReminder_name_collision_witness :
    ("HW3" : String) ≠ "" ∧ (0 : Nat) ≠ 1 ∧
    collisionWorld.students.get? 0 = some bobActive ∧
    collisionWorld.students.get? 1 = some bobEmpty ∧
    bobActive.fullName = bobEmpty.fullName ∧
    bobActive.findAssignment "HW3" =
      some ⟨"HW3", "released", none, false, none⟩ ∧
    bobEmpty.findAssignment "HW3" = none ∧
    ((collisionWorld.sendReminder "HW3").students.get? 1 =
      some (Student.mk bobEmpty.fullName bobEmpty.email
        (bobEmpty.assignmentStatuses ++
          [Assignment.mk "HW3" "submitted" none false none])
        bobEmpty.overallGrade bobEmpty.observerHasNotify) ∧
    (bobEmpty.observerHasNotify = true →
      (bobEmpty.updateAssignmentStatus "HW3" JSVal.undef).2 =
        [Observer.notifyMsg bobEmpty.fullName "HW3" "released" false])) :=
  ⟨by decide, by decide, by decide, by decide, rfl, by decide, rfl,
    C9_sendReminder_name_collision collisionWorld "HW3" 0 1 bobActive bobEmpty
      ⟨"HW3", "released", none, false, none⟩ (by decide) (by decide) (by decide)
      (by decide) rfl (by decide) (by decide) rfl⟩
